import Mathlib

/-!
Verification of the layout/placement engine of `src/utils/collisionDetection.ts`
(the 3D node-tree visualizer).  The TypeScript source is shallowly embedded:
numbers become real numbers, `Math.random()` becomes an explicit stream
`rand : ℕ → ℝ` together with a counter that advances once per call, boolean
checks on reals become classical propositions, and the mutating tree walk
becomes explicit state passing over a `LayoutState`.
-/

open Classical Real

noncomputable section

/-- 3D position, `interface Position3D` of `src/types/node.ts`. -/
structure Position3D where
  x : ℝ
  y : ℝ
  z : ℝ

/-- 2D point, the `{ x, y }` arguments of `doLinesIntersect`. -/
structure Pt2 where
  x : ℝ
  y : ℝ

/-- A node of the tree, `interface Node3D` of `src/types/node.ts` restricted to
the fields the layout engine reads or writes (`id`, `position`, `expanded`,
`children`) plus `name` and `level`, which the engine never touches (they let
the frame conditions say something non-trivial).  The remaining cosmetic
fields (`color`, `angle`, ...) are likewise never touched by the engine. -/
structure Node3D where
  id : String
  name : String
  level : ℕ
  position : Position3D
  expanded : Bool
  children : List Node3D

/-- A connection line as accumulated by the engine:
`{ start, end, startNodeId, endNodeId }` (ids optional). -/
structure Line3D where
  start : Position3D
  endPos : Position3D
  startNodeId : Option String := none
  endNodeId : Option String := none

/-- `distance3D` (collisionDetection.ts line 3). -/
def distance3D (pos1 pos2 : Position3D) : ℝ :=
  Real.sqrt ((pos1.x - pos2.x) ^ 2 + (pos1.y - pos2.y) ^ 2 + (pos1.z - pos2.z) ^ 2)

/-- `distanceFromCenter` (line 8): Euclidean norm, i.e. distance from the world
origin.  Note the function ignores any configured center. -/
def distanceFromCenter (pos : Position3D) : ℝ :=
  Real.sqrt (pos.x ^ 2 + pos.y ^ 2 + pos.z ^ 2)

/-- `doLinesIntersect` (lines 46-79): 2D parametric line intersection with a
buffer margin.  Returns (as a `Prop`) whether the two segments are considered
to intersect.  Mirrors the source: near-parallel determinant short-circuits to
`false`; otherwise both parameters must lie in `(-m, 1+m)` where
`m = buffer / max(len1, len2)`. -/
def doLinesIntersect (l1s l1e l2s l2e : Pt2) (buffer : ℝ) : Prop :=
  let det := (l1e.x - l1s.x) * (l2e.y - l2s.y) - (l2e.x - l2s.x) * (l1e.y - l1s.y)
  if |det| < 0.0001 then False
  else
    let lambda := ((l2e.y - l2s.y) * (l2e.x - l1s.x) + (l2s.x - l2e.x) * (l2e.y - l1s.y)) / det
    let gamma := ((l1s.y - l1e.y) * (l2e.x - l1s.x) + (l1e.x - l1s.x) * (l2e.y - l1s.y)) / det
    let bufferMargin := buffer /
      max (Real.sqrt ((l1e.x - l1s.x) ^ 2 + (l1e.y - l1s.y) ^ 2))
        (Real.sqrt ((l2e.x - l2s.x) ^ 2 + (l2e.y - l2s.y) ^ 2))
    lambda > -bufferMargin ∧ lambda < 1 + bufferMargin ∧
      gamma > -bufferMargin ∧ gamma < 1 + bufferMargin

/-- The adjacency exemption inside `wouldLineIntersect` (lines 140-149): when
both proposed ids are present, lines sharing an endpoint id with the proposed
line are skipped (the `line` is then not tested at all). -/
def lineNotSkipped (l : Line3D) (proposedStartNodeId proposedEndNodeId : Option String) : Prop :=
  match proposedStartNodeId, proposedEndNodeId with
  | some ps, some pe =>
      ¬(l.startNodeId = some ps ∨ l.startNodeId = some pe ∨
        l.endNodeId = some ps ∨ l.endNodeId = some pe)
  | _, _ => True

/-- `wouldLineIntersect` (lines 125-158): the proposed segment (projected to
2D) crosses some existing, non-adjacent line, tested with buffer `0.5`. -/
def wouldLineIntersect (proposedStart proposedEnd : Position3D) (existingLines : List Line3D)
    (proposedStartNodeId proposedEndNodeId : Option String) : Prop :=
  ∃ l ∈ existingLines, lineNotSkipped l proposedStartNodeId proposedEndNodeId ∧
    doLinesIntersect ⟨proposedStart.x, proposedStart.y⟩ ⟨proposedEnd.x, proposedEnd.y⟩
      ⟨l.start.x, l.start.y⟩ ⟨l.endPos.x, l.endPos.y⟩ 0.5

/-- `enforceHierarchicalDistance` (lines 177-236).  The `centerPos` parameter
is accepted but — exactly as in the source — never used: all distances are
measured from the world origin. -/
def enforceHierarchicalDistance (candidatePos parentPos : Position3D)
    (_centerPos : Position3D) (minGenerationGap : ℝ) : Position3D :=
  let parentDistanceFromCenter := distanceFromCenter parentPos
  let candidateDistanceFromCenter := distanceFromCenter candidatePos
  if candidateDistanceFromCenter ≥ parentDistanceFromCenter + minGenerationGap then
    candidatePos
  else
    let requiredDistanceFromCenter := parentDistanceFromCenter + minGenerationGap
    -- `currentDistance` recomputes the norm of (candidatePos - origin)
    let currentDistance := distanceFromCenter candidatePos
    if currentDistance < 0.001 then
      let dx := candidatePos.x - parentPos.x
      let dy := candidatePos.y - parentPos.y
      let dz := candidatePos.z - parentPos.z
      let parentDirection := Real.sqrt (dx ^ 2 + dy ^ 2 + dz ^ 2)
      if parentDirection > 0.001 then
        ⟨dx / parentDirection * requiredDistanceFromCenter,
         dy / parentDirection * requiredDistanceFromCenter,
         dz / parentDirection * requiredDistanceFromCenter⟩
      else
        -- fallback to the default direction (1, 0, 0)
        ⟨1 * requiredDistanceFromCenter, 0 * requiredDistanceFromCenter,
         0 * requiredDistanceFromCenter⟩
    else
      ⟨candidatePos.x / currentDistance * requiredDistanceFromCenter,
       candidatePos.y / currentDistance * requiredDistanceFromCenter,
       candidatePos.z / currentDistance * requiredDistanceFromCenter⟩

/-- The read-only data threaded through `findSafePosition`'s candidate loops
(an embedding convenience: in the source these are the enclosing function's
locals). `hierZ` is `hierarchicalPos.z`, `eff` is `effectiveMinDistance`. -/
structure SearchCtx where
  rand : ℕ → ℝ
  parentPos : Position3D
  centerPos : Position3D
  hierZ : ℝ
  existingPositions : List Position3D
  existingLines : List Line3D
  eff : ℝ
  currentNodeId : Option String
  parentNodeId : Option String

/-- The collision/intersection test applied to a candidate inside
`findSafePosition` (lines 256-257, 280-281, 300-302):
no existing position within `eff`, and the parent edge crosses nothing. -/
def safeChecks (ctx : SearchCtx) (testPos : Position3D) : Prop :=
  (∀ pos ∈ ctx.existingPositions, distance3D testPos pos ≥ ctx.eff) ∧
    ¬wouldLineIntersect ctx.parentPos testPos ctx.existingLines ctx.parentNodeId ctx.currentNodeId

/-- One raw angular sample of `findSafePosition`'s loops (lines 271-275,
292-296): angle `i·2π/32` around the parent at radius `dist`, `z` jittered
around the corrected preferred `z` by the `c`-th random draw. -/
def angleCandidate (ctx : SearchCtx) (dist : ℝ) (i c : ℕ) : Position3D :=
  ⟨ctx.parentPos.x + Real.cos ((i : ℝ) * Real.pi * 2 / 32) * dist,
   ctx.parentPos.y + Real.sin ((i : ℝ) * Real.pi * 2 / 32) * dist,
   ctx.hierZ + (ctx.rand c - 0.5) * 0.2⟩

/-- The 32-angle sampling loop of `findSafePosition` (lines 269-286 and the
inner loop of 290-307): tries the indices in order, consuming one random draw
per sample, returning the first sample that passes `safeChecks` after
hierarchical correction, together with the advanced random counter. -/
def angleTry (ctx : SearchCtx) (dist : ℝ) : List ℕ → ℕ → Option Position3D × ℕ
  | [], c => (none, c)
  | i :: rest, c =>
    let testPos := enforceHierarchicalDistance (angleCandidate ctx dist i c) ctx.parentPos ctx.centerPos 0.8
    if safeChecks ctx testPos then (some testPos, c + 1)
    else angleTry ctx dist rest (c + 1)

/-- The growing-radius loop of `findSafePosition` (lines 289-308): for each
radius in turn, run the 32-angle loop; return its first success. -/
def radiusTry (ctx : SearchCtx) : List ℝ → ℕ → Option Position3D × ℕ
  | [], c => (none, c)
  | d :: ds, c =>
    match angleTry ctx d (List.range 32) c with
    | (some t, c1) => (some t, c1)
    | (none, c1) => radiusTry ctx ds c1

/-- The radii tried by the second loop (line 289):
`for (distance = base+0.5; distance < base+4.0; distance += 0.3)`, i.e. the
twelve values `base + 0.5 + 0.3·k` for `k = 0..11` (`0.5 + 0.3·12 ≥ 4.0`). -/
def radiusSteps (baseDistance : ℝ) : List ℝ :=
  (List.range 12).map fun k : ℕ => baseDistance + 0.5 + 0.3 * (k : ℝ)

/-- The componentwise JS normalization of the fallback direction (lines
316-321): `direction.x / length || 1` replaces a zero (or NaN) quotient by 1,
`|| 0` leaves the y/z quotients unchanged (with `x/0 = 0` standing in for the
NaN that JS maps to the default). -/
def jsNormalize (dx dy dz len : ℝ) : Position3D :=
  ⟨if dx / len = 0 then 1 else dx / len, dy / len, dz / len⟩

/-- `findSafePosition` (lines 238-331).  Returns the chosen position together
with the advanced random counter. -/
def findSafePosition (parentPos preferredPos : Position3D)
    (existingPositions : List Position3D) (existingLines : List Line3D)
    (minDistance : ℝ) (currentNodeId parentNodeId : Option String)
    (centerPos : Position3D) (rand : ℕ → ℝ) (c : ℕ) : Position3D × ℕ :=
  let glowBuffer : ℝ := 0.6
  let effectiveMinDistance := minDistance + glowBuffer
  let hierarchicalPos := enforceHierarchicalDistance preferredPos parentPos centerPos 0.8
  let ctx : SearchCtx := ⟨rand, parentPos, centerPos, hierarchicalPos.z, existingPositions,
    existingLines, effectiveMinDistance, currentNodeId, parentNodeId⟩
  if safeChecks ctx hierarchicalPos then (hierarchicalPos, c)
  else
    let baseDistance := max (distance3D parentPos hierarchicalPos) effectiveMinDistance
    match angleTry ctx baseDistance (List.range 32) c with
    | (some t, c1) => (t, c1)
    | (none, c1) =>
      match radiusTry ctx (radiusSteps baseDistance) c1 with
      | (some t, c2) => (t, c2)
      | (none, c2) =>
        let dx := hierarchicalPos.x - parentPos.x
        let dy := hierarchicalPos.y - parentPos.y
        let dz := hierarchicalPos.z - parentPos.z
        let len := Real.sqrt (dx ^ 2 + dy ^ 2 + dz ^ 2)
        let normalized := jsNormalize dx dy dz len
        let fallbackPos : Position3D :=
          ⟨parentPos.x + normalized.x * (baseDistance + effectiveMinDistance * 2),
           parentPos.y + normalized.y * (baseDistance + effectiveMinDistance * 2),
           parentPos.z + normalized.z * (baseDistance + effectiveMinDistance * 2)⟩
        (enforceHierarchicalDistance fallbackPos parentPos centerPos 0.8, c2)

/-- Read-only data of one `arrangeChildrenAroundParent` call (lines 334-359),
threaded through its candidate loop. -/
structure ArrangeCtx where
  rand : ℕ → ℝ
  parentPos : Position3D
  centerPos : Position3D
  radius : ℝ
  numChildren : ℕ
  existingPositions : List Position3D
  existingLines : List Line3D
  eff : ℝ
  parentNodeId : Option String

/-- The raw candidate of arranger attempt `a` for child `i` (lines 367-381):
ideal slot `i·2π/N` plus perturbation `a·π/8`, radius and z jittered by the
two random draws `c` and `c+1`, then hierarchically corrected. -/
def arrangeCandidate (ctx : ArrangeCtx) (i a c : ℕ) : Position3D :=
  let baseAngle := ((i : ℝ) * 2 * Real.pi) / ctx.numChildren
  let angleVariation := (a : ℝ) * Real.pi / 8
  let finalAngle := baseAngle + angleVariation
  let finalRadius := ctx.radius + (ctx.rand c - 0.5) * 0.2
  enforceHierarchicalDistance
    ⟨ctx.parentPos.x + Real.cos finalAngle * finalRadius,
     ctx.parentPos.y + Real.sin finalAngle * finalRadius,
     ctx.parentPos.z + (ctx.rand (c + 1) - 0.5) * 0.2⟩
    ctx.parentPos ctx.centerPos 0.8

/-- Collision penalty condition of an arranger candidate (lines 384-386):
within `eff` of an already-existing position or an earlier sibling in `acc`. -/
def arrangeHasCollision (ctx : ArrangeCtx) (acc : List Position3D) (cand : Position3D) : Prop :=
  (∃ p ∈ ctx.existingPositions, distance3D cand p < ctx.eff) ∨
    (∃ p ∈ acc, distance3D cand p < ctx.eff)

/-- Intersection penalty condition of an arranger candidate (line 389). -/
def arrangeHasIntersection (ctx : ArrangeCtx) (childId : String) (cand : Position3D) : Prop :=
  wouldLineIntersect ctx.parentPos cand ctx.existingLines ctx.parentNodeId (some childId)

/-- Score of arranger attempt `a` (lines 391-394): +1000 on collision, +2000
on intersection, plus `|angleVariation| · 10` as tie-break. -/
def arrangeScore (ctx : ArrangeCtx) (acc : List Position3D) (childId : String)
    (a : ℕ) (cand : Position3D) : ℝ :=
  (if arrangeHasCollision ctx acc cand then 1000 else 0) +
    (if arrangeHasIntersection ctx childId cand then 2000 else 0) +
    |(a : ℝ) * Real.pi / 8| * 10

/-- The 16-attempt candidate loop for one child (lines 362-405): keeps the
first lowest-scoring candidate seen so far (`none` plays the role of the
initial `bestScore = ∞`), breaks as soon as a score equals its own tie-break
(i.e. both penalties are zero), and consumes two random draws per attempt. -/
def pickBestLoop (ctx : ArrangeCtx) (acc : List Position3D) (i : ℕ) (childId : String) :
    List ℕ → Option (Position3D × ℝ) → ℕ → Option Position3D × ℕ
  | [], best, c => (best.map Prod.fst, c)
  | a :: rest, best, c =>
    let cand := arrangeCandidate ctx i a c
    let score := arrangeScore ctx acc childId a cand
    let best1 := match best with
      | none => some (cand, score)
      | some (bp, bs) => if score < bs then some (cand, score) else some (bp, bs)
    if score = |(a : ℝ) * Real.pi / 8| * 10 then (best1.map Prod.fst, c + 2)
    else pickBestLoop ctx acc i childId rest best1 (c + 2)

/-- The per-child loop of the arranger (lines 361-420): run the 16-attempt
selection, then pass the winner through `findSafePosition` (against existing
positions plus the earlier siblings) and append the result. -/
def arrangeLoop (ctx : ArrangeCtx) (minDistance : ℝ) :
    List (ℕ × Node3D) → List Position3D → ℕ → List Position3D × ℕ
  | [], acc, c => (acc, c)
  | (i, child) :: rest, acc, c =>
    match pickBestLoop ctx acc i child.id (List.range 16) none c with
    | (some bestPosition, c1) =>
      let r := findSafePosition ctx.parentPos bestPosition (ctx.existingPositions ++ acc)
        ctx.existingLines minDistance (some child.id) ctx.parentNodeId ctx.centerPos ctx.rand c1
      arrangeLoop ctx minDistance rest (acc ++ [r.1]) r.2
    | (none, c1) => arrangeLoop ctx minDistance rest acc c1

/-- `arrangeChildrenAroundParent` (lines 334-423).  Returns the list of child
positions and the advanced random counter. -/
def arrangeChildrenAroundParent (parentPos : Position3D) (children : List Node3D)
    (existingPositions : List Position3D) (existingLines : List Line3D)
    (baseRadius minDistance : ℝ) (parentNodeId : Option String)
    (centerPos : Position3D) (rand : ℕ → ℝ) (c : ℕ) : List Position3D × ℕ :=
  if children.length = 0 then ([], c)
  else
    let glowBuffer : ℝ := 0.6
    let effectiveMinDistance := minDistance + glowBuffer
    let parentDistanceFromCenter := distanceFromCenter parentPos
    let minChildDistanceFromCenter := parentDistanceFromCenter + 0.8
    let hierarchicalRadius := max baseRadius (minChildDistanceFromCenter - distanceFromCenter parentPos)
    let radius := max hierarchicalRadius ((children.length : ℝ) * effectiveMinDistance / (2.2 * Real.pi))
    let ctx : ArrangeCtx := ⟨rand, parentPos, centerPos, radius, children.length,
      existingPositions, existingLines, effectiveMinDistance, parentNodeId⟩
    arrangeLoop ctx minDistance children.enum [] c

/-- The running state of a layout pass: the `allPositions` and `allLines`
accumulators of `repositionNodesWithCollisionDetection` plus the random
counter. -/
structure LayoutState where
  positions : List Position3D
  lines : List Line3D
  ctr : ℕ

/-- The `minDist` chosen by `repositionNodeAndChildren` (line 438):
`isTopLevel ? 2.8 : 1.4`. -/
def repoMinDist (level : ℕ) : ℝ := if level = 0 then 2.8 else 1.4

/-- Structural size of a node forest, the termination measure of the
tree walk. -/
def sizeList : List Node3D → ℕ
  | [] => 0
  | ⟨_, _, _, _, _, cs⟩ :: ns => 1 + sizeList cs + sizeList ns

theorem sizeList_nil : sizeList [] = 0 := by simp [sizeList]

theorem sizeList_cons (n : Node3D) (ns : List Node3D) :
    sizeList (n :: ns) = 1 + sizeList n.children + sizeList ns := by
  cases n; simp [sizeList]

mutual

/-- `repositionNodeAndChildren` (lines 435-483): place the node itself via
`findSafePosition`, record its position and edge, then (when expanded with
children) arrange the children and recurse. -/
def repositionNodeAndChildren (rand : ℕ → ℝ) (centerPos : Position3D) (centerId : String)
    (node : Node3D) (parentPos : Position3D) (level : ℕ) (parentNodeId : Option String)
    (st : LayoutState) : Node3D × LayoutState :=
  let r := findSafePosition parentPos node.position st.positions st.lines
    (repoMinDist level) (some node.id) parentNodeId centerPos rand st.ctr
  let safePosition := r.1
  let st1 : LayoutState := ⟨st.positions ++ [safePosition],
    st.lines ++ [⟨parentPos, safePosition, some (parentNodeId.getD centerId), some node.id⟩], r.2⟩
  if node.expanded = true ∧ node.children ≠ [] then
    let a := arrangeChildrenAroundParent safePosition node.children st1.positions st1.lines
      (1.7 + (level : ℝ) * 0.2) (1.3 + (level : ℝ) * 0.15) (some node.id) centerPos rand st1.ctr
    let st2 : LayoutState := ⟨st1.positions, st1.lines, a.2⟩
    let pc := placeChildren rand centerPos centerId node.children a.1 safePosition node.id level st2
    ({node with position := safePosition, children := pc.1}, pc.2)
  else
    ({node with position := safePosition}, st1)
termination_by 2 * sizeList [node]
decreasing_by
all_goals simp [sizeList_cons, sizeList_nil]
all_goals omega

/-- The `forEach` over the freshly arranged children (lines 471-481): commit
the arranged position, record it and its edge, then immediately re-place the
child by recursing with its just-assigned position as parent position. -/
def placeChildren (rand : ℕ → ℝ) (centerPos : Position3D) (centerId : String) :
    List Node3D → List Position3D → Position3D → String → ℕ → LayoutState →
    List Node3D × LayoutState
  | [], _, _, _, _, st => ([], st)
  | child :: rest, cps, nodePos, nid, level, st =>
    let first := cps.headD ⟨0, 0, 0⟩
    let st1 : LayoutState := ⟨st.positions ++ [first],
      st.lines ++ [⟨nodePos, first, some nid, some child.id⟩], st.ctr⟩
    let w := repositionNodeAndChildren rand centerPos centerId
      {child with position := first} first (level + 1) (some nid) st1
    let pr := placeChildren rand centerPos centerId rest cps.tail nodePos nid level w.2
    (w.1 :: pr.1, pr.2)
termination_by l _ _ _ _ _ => 2 * sizeList l + 1
decreasing_by
all_goals simp [sizeList_cons, sizeList_nil]
all_goals omega

end

/-- The `nodes.forEach` of the pass (lines 485-487). -/
def passLoop (rand : ℕ → ℝ) (centerPos : Position3D) (centerId : String) :
    List Node3D → LayoutState → List Node3D × LayoutState
  | [], st => ([], st)
  | n :: ns, st =>
    let w := repositionNodeAndChildren rand centerPos centerId n centerPos 0 (some centerId) st
    let p := passLoop rand centerPos centerId ns w.2
    (w.1 :: p.1, p.2)

/-- `repositionNodesWithCollisionDetection` (lines 426-488): a full layout
pass.  The source mutates `nodes` in place; the embedding returns the updated
top-level forest together with the final accumulator state. -/
def repositionNodesWithCollisionDetection (nodes : List Node3D) (centerNode : Node3D)
    (existingPositions : List Position3D) (rand : ℕ → ℝ) : List Node3D × LayoutState :=
  passLoop rand centerNode.position centerNode.id nodes
    ⟨existingPositions ++ [centerNode.position], [], 0⟩

mutual

/-- All (parent position, child position) pairs stored in a subtree, including
those inside collapsed subtrees — the quantification domain of the monotonic
radial growth property read literally over the whole produced tree. -/
def allPairsUnder (n : Node3D) : List (Position3D × Position3D) :=
  (n.children.map fun c => (n.position, c.position)) ++ allPairsList n.children
termination_by 2 * sizeList [n]
decreasing_by
all_goals simp [sizeList_cons, sizeList_nil]
all_goals omega

/-- `allPairsUnder` over a forest. -/
def allPairsList : List Node3D → List (Position3D × Position3D)
  | [] => []
  | c :: cs => allPairsUnder c ++ allPairsList cs
termination_by l => 2 * sizeList l + 1
decreasing_by
all_goals simp [sizeList_cons, sizeList_nil]
all_goals omega

end

mutual

/-- The (parent position, child position) pairs of the *visible* part of a
subtree: children of a collapsed node are hidden, so neither their pair with
the parent nor anything below them is collected. -/
def visPairsUnder (n : Node3D) : List (Position3D × Position3D) :=
  if n.expanded = true then
    (n.children.map fun c => (n.position, c.position)) ++ visPairsList n.children
  else []
termination_by 2 * sizeList [n]
decreasing_by
all_goals simp [sizeList_cons, sizeList_nil]
all_goals omega

/-- `visPairsUnder` over a forest. -/
def visPairsList : List Node3D → List (Position3D × Position3D)
  | [] => []
  | c :: cs => visPairsUnder c ++ visPairsList cs
termination_by l => 2 * sizeList l + 1
decreasing_by
all_goals simp [sizeList_cons, sizeList_nil]
all_goals omega

end

/-- All parent-child position pairs of a full tree (center plus top-level
forest), reading the stored tree literally (collapsed subtrees included).
Top-level nodes are children of the center. -/
def passAllPairs (centerPos : Position3D) (nodes : List Node3D) :
    List (Position3D × Position3D) :=
  (nodes.map fun n => (centerPos, n.position)) ++ allPairsList nodes

/-- The visible parent-child position pairs of a full tree: top-level nodes
are always visible; below that, only children of expanded nodes. -/
def passVisPairs (centerPos : Position3D) (nodes : List Node3D) :
    List (Position3D × Position3D) :=
  (nodes.map fun n => (centerPos, n.position)) ++ visPairsList nodes

/-- Frame relation between an input tree and the corresponding output tree of
a layout pass: identity fields (`id`, `name`, `level`) and the `expanded`
flag are unchanged at every node; where the walk recurses (expanded node with
children) the children correspond pairwise; everywhere else (collapsed node,
or no children) the children list — stored positions included — is returned
untouched. -/
inductive FrameOK : Node3D → Node3D → Prop where
  | intro : ∀ a b : Node3D,
      b.id = a.id → b.name = a.name → b.level = a.level → b.expanded = a.expanded →
      (a.expanded = true ∧ a.children ≠ [] → b.children.length = a.children.length) →
      (∀ (i : ℕ) (h1 : i < a.children.length) (h2 : i < b.children.length),
        a.expanded = true → a.children ≠ [] →
          FrameOK (a.children.get ⟨i, h1⟩) (b.children.get ⟨i, h2⟩)) →
      (¬(a.expanded = true ∧ a.children ≠ []) → b.children = a.children) →
      FrameOK a b

/-- Modelled from the spec (§4.1, claim C5): the same parametric intersection
test but with the buffer margin expressed as a fraction of the *shorter*
segment's length, as the spec's words have it. -/
def doLinesIntersectShorter (l1s l1e l2s l2e : Pt2) (buffer : ℝ) : Prop :=
  let det := (l1e.x - l1s.x) * (l2e.y - l2s.y) - (l2e.x - l2s.x) * (l1e.y - l1s.y)
  if |det| < 0.0001 then False
  else
    let lambda := ((l2e.y - l2s.y) * (l2e.x - l1s.x) + (l2s.x - l2e.x) * (l2e.y - l1s.y)) / det
    let gamma := ((l1s.y - l1e.y) * (l2e.x - l1s.x) + (l1e.x - l1s.x) * (l2e.y - l1s.y)) / det
    let bufferMargin := buffer /
      min (Real.sqrt ((l1e.x - l1s.x) ^ 2 + (l1e.y - l1s.y) ^ 2))
        (Real.sqrt ((l2e.x - l2s.x) ^ 2 + (l2e.y - l2s.y) ^ 2))
    lambda > -bufferMargin ∧ lambda < 1 + bufferMargin ∧
      gamma > -bufferMargin ∧ gamma < 1 + bufferMargin

/-- Modelled from the spec (claim C8's words): hierarchical enforcement in
which the parent-to-candidate direction is only used when the candidate
*coincides* with the origin (rather than lying within 0.001 of it), and the
fixed unit vector only when the candidate also coincides with the parent. -/
def enforceSpecCoincide (candidatePos parentPos : Position3D) (gap : ℝ) : Position3D :=
  if distanceFromCenter candidatePos ≥ distanceFromCenter parentPos + gap then candidatePos
  else
    let r := distanceFromCenter parentPos + gap
    if candidatePos.x = 0 ∧ candidatePos.y = 0 ∧ candidatePos.z = 0 then
      let dx := candidatePos.x - parentPos.x
      let dy := candidatePos.y - parentPos.y
      let dz := candidatePos.z - parentPos.z
      let l := Real.sqrt (dx ^ 2 + dy ^ 2 + dz ^ 2)
      if l = 0 then ⟨r, 0, 0⟩
      else ⟨dx / l * r, dy / l * r, dz / l * r⟩
    else
      let cd := distanceFromCenter candidatePos
      ⟨candidatePos.x / cd * r, candidatePos.y / cd * r, candidatePos.z / cd * r⟩

/-- Modelled from the spec (claim C10's words): whenever the rescaling
direction (origin to candidate) has (near-)zero length, substitute the fixed
default unit direction (1,0,0) — with no intermediate parent-direction
fallback. -/
def enforceFixedDefault (candidatePos parentPos : Position3D) (gap : ℝ) : Position3D :=
  if distanceFromCenter candidatePos ≥ distanceFromCenter parentPos + gap then candidatePos
  else
    let r := distanceFromCenter parentPos + gap
    if distanceFromCenter candidatePos < 0.001 then ⟨r, 0, 0⟩
    else
      let cd := distanceFromCenter candidatePos
      ⟨candidatePos.x / cd * r, candidatePos.y / cd * r, candidatePos.z / cd * r⟩

/-- Modelled from the spec (claim C3's words): the deterministic fallback of
the position search — from the parent, along the (truly normalized) direction
toward the hierarchically corrected preferred position, at the base radius
plus twice the effective minimum distance, hierarchically corrected once
more. -/
def specFallback (parentPos preferredPos : Position3D) (minDistance : ℝ)
    (centerPos : Position3D) : Position3D :=
  let eff := minDistance + 0.6
  let hier := enforceHierarchicalDistance preferredPos parentPos centerPos 0.8
  let base := max (distance3D parentPos hier) eff
  let dx := hier.x - parentPos.x
  let dy := hier.y - parentPos.y
  let dz := hier.z - parentPos.z
  let l := Real.sqrt (dx ^ 2 + dy ^ 2 + dz ^ 2)
  enforceHierarchicalDistance
    ⟨parentPos.x + dx / l * (base + eff * 2),
     parentPos.y + dy / l * (base + eff * 2),
     parentPos.z + dz / l * (base + eff * 2)⟩ parentPos centerPos 0.8

/-! ### Toolkit: evaluating square roots, distances and norms -/

theorem sqrt_val {a b : ℝ} (hb : 0 ≤ b) (h : b ^ 2 = a) : Real.sqrt a = b := by
  rw [← h, Real.sqrt_sq hb]

theorem dist3D_ge {p q : Position3D} {c : ℝ} (hc : 0 ≤ c)
    (h : c ^ 2 ≤ (p.x - q.x) ^ 2 + (p.y - q.y) ^ 2 + (p.z - q.z) ^ 2) :
    distance3D p q ≥ c := by
  unfold distance3D
  exact (Real.le_sqrt hc (by positivity)).mpr h

theorem dist3D_lt {p q : Position3D} {c : ℝ} (hc : 0 < c)
    (h : (p.x - q.x) ^ 2 + (p.y - q.y) ^ 2 + (p.z - q.z) ^ 2 < c ^ 2) :
    distance3D p q < c := by
  unfold distance3D
  exact (Real.sqrt_lt' hc).mpr h

theorem dfc_nonneg (p : Position3D) : 0 ≤ distanceFromCenter p := Real.sqrt_nonneg _

theorem dfc_ge {p : Position3D} {c : ℝ} (hc : 0 ≤ c)
    (h : c ^ 2 ≤ p.x ^ 2 + p.y ^ 2 + p.z ^ 2) : distanceFromCenter p ≥ c := by
  unfold distanceFromCenter
  exact (Real.le_sqrt hc (by positivity)).mpr h

theorem dfc_eval {p : Position3D} {c : ℝ} (hc : 0 ≤ c)
    (h : c ^ 2 = p.x ^ 2 + p.y ^ 2 + p.z ^ 2) : distanceFromCenter p = c :=
  sqrt_val hc h

theorem dist3D_eval {p q : Position3D} {c : ℝ} (hc : 0 ≤ c)
    (h : c ^ 2 = (p.x - q.x) ^ 2 + (p.y - q.y) ^ 2 + (p.z - q.z) ^ 2) :
    distance3D p q = c := sqrt_val hc h

/-- Norm of a vector obtained by normalizing `(dx, dy, dz)` by its own length
and rescaling to `r`: exactly `r`. -/
theorem norm_scaled {dx dy dz r : ℝ} (hr : 0 ≤ r)
    (h : 0 < Real.sqrt (dx ^ 2 + dy ^ 2 + dz ^ 2)) :
    distanceFromCenter
      ⟨dx / Real.sqrt (dx ^ 2 + dy ^ 2 + dz ^ 2) * r,
       dy / Real.sqrt (dx ^ 2 + dy ^ 2 + dz ^ 2) * r,
       dz / Real.sqrt (dx ^ 2 + dy ^ 2 + dz ^ 2) * r⟩ = r := by
  set s := Real.sqrt (dx ^ 2 + dy ^ 2 + dz ^ 2) with hs
  have hS : s ^ 2 = dx ^ 2 + dy ^ 2 + dz ^ 2 := by
    rw [hs]
    exact Real.sq_sqrt (by positivity)
  have hs0 : s ≠ 0 := ne_of_gt h
  unfold distanceFromCenter
  have hcomp : (dx / s * r) ^ 2 + (dy / s * r) ^ 2 + (dz / s * r) ^ 2 = r ^ 2 := by
    field_simp
    nlinarith [hS]
  rw [show ((⟨dx / s * r, dy / s * r, dz / s * r⟩ : Position3D).x ^ 2 +
      (⟨dx / s * r, dy / s * r, dz / s * r⟩ : Position3D).y ^ 2 +
      (⟨dx / s * r, dy / s * r, dz / s * r⟩ : Position3D).z ^ 2) =
      r ^ 2 from hcomp]
  exact Real.sqrt_sq hr

/-! ### The contract of `enforceHierarchicalDistance` -/

/-- Case analysis of `enforceHierarchicalDistance`: either the candidate is
already far enough and is returned unchanged, or the result lies at exactly
`distanceFromCenter parent + gap` from the origin. -/
theorem enforce_cases (cand par ctr : Position3D) {g : ℝ} (hg : 0 ≤ g) :
    (distanceFromCenter cand ≥ distanceFromCenter par + g ∧
      enforceHierarchicalDistance cand par ctr g = cand) ∨
    (¬(distanceFromCenter cand ≥ distanceFromCenter par + g) ∧
      distanceFromCenter (enforceHierarchicalDistance cand par ctr g) =
        distanceFromCenter par + g) := by
  unfold enforceHierarchicalDistance
  by_cases h1 : distanceFromCenter cand ≥ distanceFromCenter par + g
  · exact Or.inl ⟨h1, by rw [if_pos h1]⟩
  · refine Or.inr ⟨h1, ?_⟩
    rw [if_neg h1]
    have hr : 0 ≤ distanceFromCenter par + g := by
      have := dfc_nonneg par
      linarith
    by_cases h2 : distanceFromCenter cand < 0.001
    · rw [if_pos h2]
      by_cases h3 : Real.sqrt ((cand.x - par.x) ^ 2 + (cand.y - par.y) ^ 2 +
          (cand.z - par.z) ^ 2) > 0.001
      · rw [if_pos h3]
        exact norm_scaled hr (lt_trans (by norm_num) h3)
      · rw [if_neg h3]
        refine dfc_eval hr ?_
        ring
    · rw [if_neg h2]
      have hpos : 0 < distanceFromCenter cand := by
        have := dfc_nonneg cand
        by_contra hc
        push_neg at hc
        have : distanceFromCenter cand = 0 := le_antisymm hc this
        rw [this] at h2
        exact h2 (by norm_num)
      exact norm_scaled hr hpos

/-- Branch equation: a near-origin candidate with a usable parent direction
is rescaled along the parent-to-candidate direction. -/
theorem enforce_parentdir {cand par : Position3D} (ctr : Position3D) {g : ℝ}
    (h1 : ¬(distanceFromCenter cand ≥ distanceFromCenter par + g))
    (h2 : distanceFromCenter cand < 0.001)
    (h3 : Real.sqrt ((cand.x - par.x) ^ 2 + (cand.y - par.y) ^ 2 + (cand.z - par.z) ^ 2) >
      0.001) :
    enforceHierarchicalDistance cand par ctr g =
      ⟨(cand.x - par.x) /
          Real.sqrt ((cand.x - par.x) ^ 2 + (cand.y - par.y) ^ 2 + (cand.z - par.z) ^ 2) *
          (distanceFromCenter par + g),
       (cand.y - par.y) /
          Real.sqrt ((cand.x - par.x) ^ 2 + (cand.y - par.y) ^ 2 + (cand.z - par.z) ^ 2) *
          (distanceFromCenter par + g),
       (cand.z - par.z) /
          Real.sqrt ((cand.x - par.x) ^ 2 + (cand.y - par.y) ^ 2 + (cand.z - par.z) ^ 2) *
          (distanceFromCenter par + g)⟩ := by
  unfold enforceHierarchicalDistance
  rw [if_neg h1, if_pos h2, if_pos h3]

/-- Branch equation: a near-origin candidate that is also (nearly) at the
parent falls back to the fixed default direction `(1, 0, 0)`. -/
theorem enforce_default {cand par : Position3D} (ctr : Position3D) {g : ℝ}
    (h1 : ¬(distanceFromCenter cand ≥ distanceFromCenter par + g))
    (h2 : distanceFromCenter cand < 0.001)
    (h3 : ¬(Real.sqrt ((cand.x - par.x) ^ 2 + (cand.y - par.y) ^ 2 + (cand.z - par.z) ^ 2) >
      0.001)) :
    enforceHierarchicalDistance cand par ctr g =
      ⟨distanceFromCenter par + g, 0, 0⟩ := by
  unfold enforceHierarchicalDistance
  rw [if_neg h1, if_pos h2, if_neg h3]
  simp

/-- Branch equation: a too-close candidate not near the origin is rescaled
along the origin-to-candidate direction. -/
theorem enforce_rescale {cand par : Position3D} (ctr : Position3D) {g : ℝ}
    (h1 : ¬(distanceFromCenter cand ≥ distanceFromCenter par + g))
    (h2 : ¬(distanceFromCenter cand < 0.001)) :
    enforceHierarchicalDistance cand par ctr g =
      ⟨cand.x / distanceFromCenter cand * (distanceFromCenter par + g),
       cand.y / distanceFromCenter cand * (distanceFromCenter par + g),
       cand.z / distanceFromCenter cand * (distanceFromCenter par + g)⟩ := by
  unfold enforceHierarchicalDistance
  rw [if_neg h1, if_neg h2]

/-- Every output of `enforceHierarchicalDistance` is at least
`distanceFromCenter parent + gap` away from the origin. -/
theorem enforce_norm (cand par ctr : Position3D) {g : ℝ} (hg : 0 ≤ g) :
    distanceFromCenter (enforceHierarchicalDistance cand par ctr g) ≥
      distanceFromCenter par + g := by
  rcases enforce_cases cand par ctr hg with ⟨h1, h2⟩ | ⟨h1, h2⟩
  · rw [h2]; exact h1
  · rw [h2]

/-! ### Lemmas about the candidate loops of the position search -/

/-- A successful angle sample passed the collision/intersection checks and is
an output of the hierarchical enforcement around the loop's parent. -/
theorem angleTry_some {ctx : SearchCtx} {d : ℝ} {l : List ℕ} {c : ℕ}
    {t : Position3D} {c1 : ℕ} (h : angleTry ctx d l c = (some t, c1)) :
    safeChecks ctx t ∧
      ∃ raw, t = enforceHierarchicalDistance raw ctx.parentPos ctx.centerPos 0.8 := by
  induction l generalizing c with
  | nil => simp [angleTry] at h
  | cons i rest ih =>
    rw [angleTry] at h
    by_cases hc : safeChecks ctx
        (enforceHierarchicalDistance (angleCandidate ctx d i c) ctx.parentPos ctx.centerPos 0.8)
    · rw [if_pos hc] at h
      obtain ⟨h1, _⟩ := Prod.mk.injEq .. ▸ h
      cases h1
      exact ⟨hc, ⟨angleCandidate ctx d i c, rfl⟩⟩
    · rw [if_neg hc] at h
      exact ih h

/-- As `angleTry_some`, for the growing-radius loop. -/
theorem radiusTry_some {ctx : SearchCtx} {ds : List ℝ} {c : ℕ}
    {t : Position3D} {c1 : ℕ} (h : radiusTry ctx ds c = (some t, c1)) :
    safeChecks ctx t ∧
      ∃ raw, t = enforceHierarchicalDistance raw ctx.parentPos ctx.centerPos 0.8 := by
  induction ds generalizing c with
  | nil => simp [radiusTry] at h
  | cons d rest ih =>
    rw [radiusTry] at h
    rcases hA : angleTry ctx d (List.range 32) c with ⟨o, cx⟩
    rw [hA] at h
    cases o with
    | some t0 =>
      simp at h
      obtain ⟨h1, _⟩ := h
      cases h1
      exact angleTry_some hA
    | none => exact ih h

/-- Every result of `findSafePosition` is an output of
`enforceHierarchicalDistance` applied with the same parent position (and gap
0.8): the corrected preferred position, a corrected sample, or the corrected
fallback. -/
theorem findSafePosition_shape (parentPos preferredPos : Position3D)
    (existingPositions : List Position3D) (existingLines : List Line3D)
    (minDistance : ℝ) (currentNodeId parentNodeId : Option String)
    (centerPos : Position3D) (rand : ℕ → ℝ) (c : ℕ) :
    ∃ raw, (findSafePosition parentPos preferredPos existingPositions existingLines
        minDistance currentNodeId parentNodeId centerPos rand c).1 =
      enforceHierarchicalDistance raw parentPos centerPos 0.8 := by
  unfold findSafePosition
  dsimp only
  split
  · exact ⟨preferredPos, rfl⟩
  · split
    · next t c1 hA => exact (angleTry_some hA).2
    · split
      · next t c2 hR => exact (radiusTry_some hR).2
      · exact ⟨_, rfl⟩

/-- Every position returned by `findSafePosition` lies at least 0.8 farther
from the origin than the parent position it was called with. -/
theorem findSafePosition_norm (parentPos preferredPos : Position3D)
    (existingPositions : List Position3D) (existingLines : List Line3D)
    (minDistance : ℝ) (currentNodeId parentNodeId : Option String)
    (centerPos : Position3D) (rand : ℕ → ℝ) (c : ℕ) :
    distanceFromCenter (findSafePosition parentPos preferredPos existingPositions
        existingLines minDistance currentNodeId parentNodeId centerPos rand c).1 ≥
      distanceFromCenter parentPos + 0.8 := by
  obtain ⟨raw, hr⟩ := findSafePosition_shape parentPos preferredPos existingPositions
    existingLines minDistance currentNodeId parentNodeId centerPos rand c
  rw [hr]
  exact enforce_norm raw parentPos centerPos (by norm_num)

/-! ### Unfolding lemmas for the tree walk -/

/-- One-step unfolding of `repositionNodeAndChildren` for an expanded node
with children: place the node, arrange its children, then re-place each child
recursively. -/
theorem worker_expanded (rand : ℕ → ℝ) (centerPos : Position3D) (centerId : String)
    (node : Node3D) (parentPos : Position3D) (level : ℕ) (parentNodeId : Option String)
    (st : LayoutState) (h : node.expanded = true ∧ node.children ≠ []) :
    repositionNodeAndChildren rand centerPos centerId node parentPos level parentNodeId st =
      (let r := findSafePosition parentPos node.position st.positions st.lines
        (repoMinDist level) (some node.id) parentNodeId centerPos rand st.ctr
      let st1 : LayoutState := ⟨st.positions ++ [r.1],
        st.lines ++ [⟨parentPos, r.1, some (parentNodeId.getD centerId), some node.id⟩], r.2⟩
      let a := arrangeChildrenAroundParent r.1 node.children st1.positions st1.lines
        (1.7 + (level : ℝ) * 0.2) (1.3 + (level : ℝ) * 0.15) (some node.id) centerPos rand st1.ctr
      let pc := placeChildren rand centerPos centerId node.children a.1 r.1 node.id level
        ⟨st1.positions, st1.lines, a.2⟩
      ({node with position := r.1, children := pc.1}, pc.2)) := by
  rw [repositionNodeAndChildren]
  rw [if_pos h]

/-- One-step unfolding of `repositionNodeAndChildren` for a node that is
collapsed or childless: only the node itself is placed and recorded; its
stored children are returned untouched. -/
theorem worker_not_expanded (rand : ℕ → ℝ) (centerPos : Position3D) (centerId : String)
    (node : Node3D) (parentPos : Position3D) (level : ℕ) (parentNodeId : Option String)
    (st : LayoutState) (h : ¬(node.expanded = true ∧ node.children ≠ [])) :
    repositionNodeAndChildren rand centerPos centerId node parentPos level parentNodeId st =
      (let r := findSafePosition parentPos node.position st.positions st.lines
        (repoMinDist level) (some node.id) parentNodeId centerPos rand st.ctr
      ({node with position := r.1},
        ⟨st.positions ++ [r.1],
         st.lines ++ [⟨parentPos, r.1, some (parentNodeId.getD centerId), some node.id⟩], r.2⟩)) := by
  rw [repositionNodeAndChildren]
  rw [if_neg h]

/-- The committed position of a node processed by the tree walk is exactly
the result of `findSafePosition` called with the walk's parent position, the
node's stored position as preferred position, the accumulated state, and the
level-scaled `minDist`. -/
theorem worker_position (rand : ℕ → ℝ) (centerPos : Position3D) (centerId : String)
    (node : Node3D) (parentPos : Position3D) (level : ℕ) (parentNodeId : Option String)
    (st : LayoutState) :
    (repositionNodeAndChildren rand centerPos centerId node parentPos level parentNodeId st).1.position =
      (findSafePosition parentPos node.position st.positions st.lines
        (repoMinDist level) (some node.id) parentNodeId centerPos rand st.ctr).1 := by
  by_cases h : node.expanded = true ∧ node.children ≠ []
  · rw [worker_expanded rand centerPos centerId node parentPos level parentNodeId st h]
  · rw [worker_not_expanded rand centerPos centerId node parentPos level parentNodeId st h]

/-! ### Structural lemmas about the arranger -/

/-- The 16-attempt loop returns a candidate whenever it has at least one
attempt to evaluate (the source's `bestScore` starts at `∞`, so the very
first attempt installs a best candidate). -/
theorem pickBestLoop_isSome (ctx : ArrangeCtx) (acc : List Position3D) (i : ℕ)
    (childId : String) :
    ∀ (l : List ℕ) (best : Option (Position3D × ℝ)) (c : ℕ),
      l ≠ [] ∨ best.isSome →
      ((pickBestLoop ctx acc i childId l best c).1).isSome := by
  intro l
  induction l with
  | nil =>
    intro best c h
    rcases h with h | h
    · exact absurd rfl h
    · rcases best with _ | ⟨bp, bs⟩
      · simp at h
      · simp [pickBestLoop]
  | cons a rest ih =>
    intro best c _
    rw [pickBestLoop.eq_def]
    dsimp only
    split
    · rcases best with _ | ⟨bp, bs⟩
      · simp
      · split <;> simp [apply_ite Option.isSome]
    · rcases best with _ | ⟨bp, bs⟩
      · exact ih _ (c + 2) (Or.inr (by simp))
      · refine ih _ (c + 2) (Or.inr ?_)
        split <;> simp [apply_ite Option.isSome]

/-- The arranger produces exactly one position per child. -/
theorem arrangeLoop_length (ctx : ArrangeCtx) (m : ℝ) :
    ∀ (l : List (ℕ × Node3D)) (acc : List Position3D) (c : ℕ),
      ((arrangeLoop ctx m l acc c).1).length = acc.length + l.length := by
  intro l
  induction l with
  | nil => intro acc c; simp [arrangeLoop]
  | cons p rest ih =>
    intro acc c
    rcases p with ⟨i, child⟩
    rw [arrangeLoop]
    rcases hpb : pickBestLoop ctx acc i child.id (List.range 16) none c with ⟨o, c1⟩
    have hsome : o.isSome := by
      have := pickBestLoop_isSome ctx acc i child.id (List.range 16) none c (Or.inl (by simp))
      rw [hpb] at this
      exact this
    rcases o with _ | b
    · simp at hsome
    · simp only
      rw [ih]
      simp
      omega

/-- `arrangeChildrenAroundParent` returns exactly one position per child. -/
theorem arrange_length (parentPos : Position3D) (children : List Node3D)
    (existingPositions : List Position3D) (existingLines : List Line3D)
    (baseRadius minDistance : ℝ) (parentNodeId : Option String)
    (centerPos : Position3D) (rand : ℕ → ℝ) (c : ℕ) :
    ((arrangeChildrenAroundParent parentPos children existingPositions existingLines
      baseRadius minDistance parentNodeId centerPos rand c).1).length = children.length := by
  unfold arrangeChildrenAroundParent
  split
  · next h => simp [h]
  · rw [arrangeLoop_length]
    simp

/-- Every position in the arranger's accumulator stays 0.8 farther from the
origin than the arranger's parent: each committed child position comes out of
`findSafePosition` called with that parent position. -/
theorem arrangeLoop_norm (ctx : ArrangeCtx) (m : ℝ) :
    ∀ (l : List (ℕ × Node3D)) (acc : List Position3D) (c : ℕ),
      (∀ x ∈ acc, distanceFromCenter x ≥ distanceFromCenter ctx.parentPos + 0.8) →
      ∀ x ∈ (arrangeLoop ctx m l acc c).1,
        distanceFromCenter x ≥ distanceFromCenter ctx.parentPos + 0.8 := by
  intro l
  induction l with
  | nil => intro acc c hacc; simpa [arrangeLoop] using hacc
  | cons p rest ih =>
    intro acc c hacc
    rcases p with ⟨i, child⟩
    rw [arrangeLoop]
    rcases hpb : pickBestLoop ctx acc i child.id (List.range 16) none c with ⟨o, c1⟩
    rcases o with _ | b
    · exact ih acc c1 hacc
    · refine ih _ _ ?_
      intro x hx
      rcases List.mem_append.mp hx with hx | hx
      · exact hacc x hx
      · rcases List.mem_singleton.mp hx with rfl
        exact findSafePosition_norm ..

/-- Every position returned by `arrangeChildrenAroundParent` lies at least
0.8 farther from the origin than the parent around which it arranges. -/
theorem arrange_norm (parentPos : Position3D) (children : List Node3D)
    (existingPositions : List Position3D) (existingLines : List Line3D)
    (baseRadius minDistance : ℝ) (parentNodeId : Option String)
    (centerPos : Position3D) (rand : ℕ → ℝ) (c : ℕ) :
    ∀ x ∈ (arrangeChildrenAroundParent parentPos children existingPositions existingLines
        baseRadius minDistance parentNodeId centerPos rand c).1,
      distanceFromCenter x ≥ distanceFromCenter parentPos + 0.8 := by
  unfold arrangeChildrenAroundParent
  split
  · simp
  · exact arrangeLoop_norm _ _ _ _ _ (by simp)

/-! ### Pair collectors: unfolding lemmas -/

theorem visPairsUnder_eq (n : Node3D) :
    visPairsUnder n =
      if n.expanded = true then
        (n.children.map fun c => (n.position, c.position)) ++ visPairsList n.children
      else [] := by
  rw [visPairsUnder]

theorem visPairsList_nil : visPairsList [] = [] := by rw [visPairsList]

theorem visPairsList_cons (c : Node3D) (cs : List Node3D) :
    visPairsList (c :: cs) = visPairsUnder c ++ visPairsList cs := by rw [visPairsList]

theorem allPairsUnder_eq (n : Node3D) :
    allPairsUnder n =
      (n.children.map fun c => (n.position, c.position)) ++ allPairsList n.children := by
  rw [allPairsUnder]

theorem allPairsList_nil : allPairsList [] = [] := by rw [allPairsList]

theorem allPairsList_cons (c : Node3D) (cs : List Node3D) :
    allPairsList (c :: cs) = allPairsUnder c ++ allPairsList cs := by rw [allPairsList]

/-- A pair collected over a forest comes from one of its trees. -/
theorem visPairsList_mem {pr : Position3D × Position3D} :
    ∀ {l : List Node3D}, pr ∈ visPairsList l → ∃ n ∈ l, pr ∈ visPairsUnder n := by
  intro l
  induction l with
  | nil => intro h; rw [visPairsList_nil] at h; simp at h
  | cons c cs ih =>
    intro h
    rw [visPairsList_cons] at h
    rcases List.mem_append.mp h with h | h
    · exact ⟨c, List.mem_cons_self .., h⟩
    · obtain ⟨n, hn, hpr⟩ := ih h
      exact ⟨n, List.mem_cons_of_mem _ hn, hpr⟩

/-! ### Visible monotone radial growth of the tree walk -/

mutual

/-- The tree walk places every node at least 0.8 farther from the origin than
the parent position it is given, and every visible parent-child pair in its
output satisfies the same bound. -/
theorem worker_vis (rand : ℕ → ℝ) (centerPos : Position3D) (centerId : String)
    (node : Node3D) (parentPos : Position3D) (level : ℕ) (parentNodeId : Option String)
    (st : LayoutState) :
    distanceFromCenter
        (repositionNodeAndChildren rand centerPos centerId node parentPos level parentNodeId st).1.position ≥
      distanceFromCenter parentPos + 0.8 ∧
    ∀ pr ∈ visPairsUnder
        (repositionNodeAndChildren rand centerPos centerId node parentPos level parentNodeId st).1,
      distanceFromCenter pr.2 ≥ distanceFromCenter pr.1 + 0.8 := by
  constructor
  · rw [worker_position]
    exact findSafePosition_norm ..
  · by_cases h : node.expanded = true ∧ node.children ≠ []
    · rw [worker_expanded rand centerPos centerId node parentPos level parentNodeId st h]
      intro pr hpr
      rw [visPairsUnder_eq] at hpr
      simp only [h.1, if_pos] at hpr
      set r := findSafePosition parentPos node.position st.positions st.lines
        (repoMinDist level) (some node.id) parentNodeId centerPos rand st.ctr with hr
      set st1 : LayoutState := ⟨st.positions ++ [r.1],
        st.lines ++ [⟨parentPos, r.1, some (parentNodeId.getD centerId), some node.id⟩], r.2⟩ with hst1
      set a := arrangeChildrenAroundParent r.1 node.children st1.positions st1.lines
        (1.7 + (level : ℝ) * 0.2) (1.3 + (level : ℝ) * 0.15) (some node.id) centerPos rand st1.ctr with ha
      have hArrNorm : ∀ x ∈ a.1, distanceFromCenter x ≥ distanceFromCenter r.1 + 0.8 := by
        rw [ha]; exact arrange_norm _ _ _ _ _ _ _ _ _ _
      have hArrLen : node.children.length ≤ a.1.length := by
        rw [ha, arrange_length]
      have hPC := placeChildren_vis rand centerPos centerId node.children a.1 r.1 node.id level
        ⟨st1.positions, st1.lines, a.2⟩ hArrNorm hArrLen
      rcases List.mem_append.mp hpr with hpr | hpr
      · obtain ⟨c', hc', rfl⟩ := List.mem_map.mp hpr
        have := (hPC c' hc').1
        simp only
        linarith
      · obtain ⟨c', hc', hpr2⟩ := visPairsList_mem hpr
        exact (hPC c' hc').2 pr hpr2
    · rw [worker_not_expanded rand centerPos centerId node parentPos level parentNodeId st h]
      intro pr hpr
      rw [visPairsUnder_eq] at hpr
      by_cases hx : node.expanded = true
      · have hch : node.children = [] := by
          by_contra hne
          exact h ⟨hx, hne⟩
        simp only [hx, if_pos, hch] at hpr
        rw [visPairsList_nil] at hpr
        simp at hpr
      · simp only at hpr
        rw [if_neg (by simpa using hx)] at hpr
        simp at hpr
termination_by 2 * sizeList [node]
decreasing_by
all_goals simp [sizeList_cons, sizeList_nil]
all_goals omega

/-- As `worker_vis`, over the list of freshly arranged children: provided all
arranged positions clear the parent position by 0.8 (which `arrange_norm`
guarantees), every re-placed child clears it too, and every visible pair below
them is monotone. -/
theorem placeChildren_vis (rand : ℕ → ℝ) (centerPos : Position3D) (centerId : String)
    (cs : List Node3D) (cps : List Position3D) (nodePos : Position3D) (nid : String)
    (level : ℕ) (st : LayoutState)
    (hcps : ∀ x ∈ cps, distanceFromCenter x ≥ distanceFromCenter nodePos + 0.8)
    (hlen : cs.length ≤ cps.length) :
    ∀ c' ∈ (placeChildren rand centerPos centerId cs cps nodePos nid level st).1,
      distanceFromCenter c'.position ≥ distanceFromCenter nodePos + 0.8 ∧
      ∀ pr ∈ visPairsUnder c',
        distanceFromCenter pr.2 ≥ distanceFromCenter pr.1 + 0.8 := by
  match cs, hlen with
  | [], _ =>
    rw [placeChildren]
    intro c' hc'
    simp at hc'
  | child :: rest, hlen =>
    rw [placeChildren]
    intro c' hc'
    have hcpsne : cps ≠ [] := by
      intro hemp
      rw [hemp] at hlen
      simp at hlen
    have hfirst : cps.headD ⟨0, 0, 0⟩ ∈ cps := by
      rcases cps with _ | ⟨c0, crest⟩
      · exact absurd rfl hcpsne
      · simp
    have hfn : distanceFromCenter (cps.headD ⟨0, 0, 0⟩) ≥ distanceFromCenter nodePos + 0.8 :=
      hcps _ hfirst
    rcases List.mem_cons.mp hc' with rfl | hc'
    · have hw := worker_vis rand centerPos centerId {child with position := cps.headD ⟨0, 0, 0⟩}
        (cps.headD ⟨0, 0, 0⟩) (level + 1) (some nid)
        ⟨st.positions ++ [cps.headD ⟨0, 0, 0⟩],
         st.lines ++ [⟨nodePos, cps.headD ⟨0, 0, 0⟩, some nid, some child.id⟩], st.ctr⟩
      refine ⟨?_, hw.2⟩
      have := hw.1
      linarith
    · have hlen2 : rest.length ≤ cps.tail.length := by
        rcases cps with _ | ⟨c0, crest⟩
        · exact absurd rfl hcpsne
        · simpa using Nat.le_of_succ_le_succ hlen
      have hcps2 : ∀ x ∈ cps.tail, distanceFromCenter x ≥ distanceFromCenter nodePos + 0.8 := by
        intro x hx
        exact hcps x (List.mem_of_mem_tail hx)
      exact placeChildren_vis rand centerPos centerId rest cps.tail nodePos nid level _
        hcps2 hlen2 c' hc'
termination_by 2 * sizeList cs + 1
decreasing_by
all_goals simp [sizeList_cons, sizeList_nil]
all_goals omega

end

/-! ### Frame machinery -/

/-- `placeChildren` returns exactly one node per child. -/
theorem placeChildren_length (rand : ℕ → ℝ) (centerPos : Position3D) (centerId : String) :
    ∀ (cs : List Node3D) (cps : List Position3D) (nodePos : Position3D) (nid : String)
      (level : ℕ) (st : LayoutState),
      ((placeChildren rand centerPos centerId cs cps nodePos nid level st).1).length = cs.length := by
  intro cs
  induction cs with
  | nil => intro cps nodePos nid level st; rw [placeChildren]
  | cons child rest ih =>
    intro cps nodePos nid level st
    rw [placeChildren]
    simp only [List.length_cons]
    rw [ih]

/-- `FrameOK` never inspects the input node's position, so updating it is
invisible to the relation. -/
theorem FrameOK_of_update {c : Node3D} {p : Position3D} {b : Node3D}
    (h : FrameOK {c with position := p} b) : FrameOK c b := by
  obtain ⟨_, _, h1, h2, h3, h4, h5, h6, h7⟩ := h
  exact FrameOK.intro c b h1 h2 h3 h4 h5 h6 h7

mutual

/-- The tree walk preserves every field except `position`: ids, names,
levels and expansion flags are unchanged, expanded children correspond
one-to-one, and the children of a collapsed (or childless) node are returned
untouched, stored positions included. -/
theorem worker_frame (rand : ℕ → ℝ) (centerPos : Position3D) (centerId : String)
    (node : Node3D) (parentPos : Position3D) (level : ℕ) (parentNodeId : Option String)
    (st : LayoutState) :
    FrameOK node
      (repositionNodeAndChildren rand centerPos centerId node parentPos level parentNodeId st).1 := by
  by_cases h : node.expanded = true ∧ node.children ≠ []
  · rw [worker_expanded rand centerPos centerId node parentPos level parentNodeId st h]
    refine FrameOK.intro node _ rfl rfl rfl rfl ?_ ?_ ?_
    · intro _
      exact placeChildren_length ..
    · intro i h1 h2 _ _
      exact placeChildren_frame rand centerPos centerId node.children _ _ _ _ _ i h1
        (by rwa [placeChildren_length] )
    · intro hnot
      exact absurd h hnot
  · rw [worker_not_expanded rand centerPos centerId node parentPos level parentNodeId st h]
    refine FrameOK.intro node _ rfl rfl rfl rfl ?_ ?_ ?_
    · intro hcond
      exact absurd hcond h
    · intro i h1 h2 hexp hne
      exact absurd ⟨hexp, hne⟩ h
    · intro _
      rfl
termination_by 2 * sizeList [node]
decreasing_by
all_goals simp [sizeList_cons, sizeList_nil]
all_goals omega

/-- As `worker_frame`, elementwise over the freshly arranged children. -/
theorem placeChildren_frame (rand : ℕ → ℝ) (centerPos : Position3D) (centerId : String)
    (cs : List Node3D) (cps : List Position3D) (nodePos : Position3D) (nid : String)
    (level : ℕ) (st : LayoutState) :
    ∀ (i : ℕ) (h1 : i < cs.length)
      (h2 : i < ((placeChildren rand centerPos centerId cs cps nodePos nid level st).1).length),
      FrameOK (cs.get ⟨i, h1⟩)
        (((placeChildren rand centerPos centerId cs cps nodePos nid level st).1).get ⟨i, h2⟩) := by
  match cs with
  | [] =>
    intro i h1 h2
    simp at h1
  | child :: rest =>
    rw [placeChildren]
    intro i h1 h2
    match i with
    | 0 =>
      simp only [List.get]
      exact FrameOK_of_update (worker_frame rand centerPos centerId
        {child with position := cps.headD ⟨0, 0, 0⟩} (cps.headD ⟨0, 0, 0⟩) (level + 1)
        (some nid)
        ⟨st.positions ++ [cps.headD ⟨0, 0, 0⟩],
         st.lines ++ [⟨nodePos, cps.headD ⟨0, 0, 0⟩, some nid, some child.id⟩], st.ctr⟩)
    | Nat.succ j =>
      simp only [List.get]
      exact placeChildren_frame rand centerPos centerId rest cps.tail nodePos nid level _
        j (Nat.lt_of_succ_lt_succ h1) _
termination_by 2 * sizeList cs + 1
decreasing_by
all_goals simp [sizeList_cons, sizeList_nil]
all_goals omega

end

/-! ### Pass-level lemmas -/

/-- Monotone radial growth of all visible pairs produced by the top-level
forEach. -/
theorem passLoop_vis (rand : ℕ → ℝ) (centerPos : Position3D) (centerId : String) :
    ∀ (ns : List Node3D) (st : LayoutState),
      ∀ pr ∈ passVisPairs centerPos (passLoop rand centerPos centerId ns st).1,
        distanceFromCenter pr.2 ≥ distanceFromCenter pr.1 + 0.8 := by
  intro ns
  induction ns with
  | nil =>
    intro st pr hpr
    rw [passLoop] at hpr
    simp only [passVisPairs] at hpr
    rw [visPairsList_nil] at hpr
    simp at hpr
  | cons n rest ih =>
    intro st pr hpr
    rw [passLoop] at hpr
    simp only [passVisPairs, List.map_cons] at hpr
    rw [visPairsList_cons] at hpr
    rcases List.mem_append.mp hpr with hpr | hpr
    · rcases List.mem_cons.mp hpr with rfl | hpr
      · exact (worker_vis rand centerPos centerId n centerPos 0 (some centerId) st).1
      · obtain ⟨n', hn', rfl⟩ := List.mem_map.mp hpr
        refine ih (repositionNodeAndChildren rand centerPos centerId n centerPos 0
          (some centerId) st).2 _ ?_
        simp only [passVisPairs]
        exact List.mem_append.mpr (Or.inl (List.mem_map.mpr ⟨n', hn', rfl⟩))
    · rcases List.mem_append.mp hpr with hpr | hpr
      · exact (worker_vis rand centerPos centerId n centerPos 0 (some centerId) st).2 pr hpr
      · refine ih (repositionNodeAndChildren rand centerPos centerId n centerPos 0
          (some centerId) st).2 pr ?_
        simp only [passVisPairs]
        exact List.mem_append.mpr (Or.inr hpr)

/-- The pass leaves everything except positions intact, tree by tree. -/
theorem passLoop_frame (rand : ℕ → ℝ) (centerPos : Position3D) (centerId : String) :
    ∀ (ns : List Node3D) (st : LayoutState),
      List.Forall₂ FrameOK ns (passLoop rand centerPos centerId ns st).1 := by
  intro ns
  induction ns with
  | nil => intro st; rw [passLoop]; exact List.Forall₂.nil
  | cons n rest ih =>
    intro st
    rw [passLoop]
    exact List.Forall₂.cons (worker_frame rand centerPos centerId n centerPos 0 (some centerId) st)
      (ih _)

/-! ### Concrete-evaluation helpers -/

/-- If the candidate is already far enough from the origin, hierarchical
enforcement returns it unchanged. -/
theorem enforce_far {cand par ctr : Position3D} {g : ℝ}
    (h : distanceFromCenter cand ≥ distanceFromCenter par + g) :
    enforceHierarchicalDistance cand par ctr g = cand := by
  unfold enforceHierarchicalDistance
  rw [if_pos h]

/-- If the corrected preferred position passes both checks, the search
returns it directly. -/
theorem findSafePosition_first {parentPos preferredPos : Position3D}
    {existingPositions : List Position3D} {existingLines : List Line3D}
    {minDistance : ℝ} {currentNodeId parentNodeId : Option String}
    {centerPos : Position3D} {rand : ℕ → ℝ} {c : ℕ}
    (hsafe : safeChecks
      ⟨rand, parentPos, centerPos,
        (enforceHierarchicalDistance preferredPos parentPos centerPos 0.8).z,
        existingPositions, existingLines, minDistance + 0.6, currentNodeId, parentNodeId⟩
      (enforceHierarchicalDistance preferredPos parentPos centerPos 0.8)) :
    findSafePosition parentPos preferredPos existingPositions existingLines minDistance
        currentNodeId parentNodeId centerPos rand c =
      (enforceHierarchicalDistance preferredPos parentPos centerPos 0.8, c) := by
  unfold findSafePosition
  dsimp only
  rw [if_pos hsafe]

/-- An intersection check against an empty line set never fires. -/
theorem wouldLineIntersect_nil (a b : Position3D) (x y : Option String) :
    ¬wouldLineIntersect a b [] x y := by
  simp [wouldLineIntersect]

/-- The constant random stream used by the concrete runs: every draw is 1/2,
so every jitter term `(rand − 0.5) · 0.2` vanishes. -/
def randHalf : ℕ → ℝ := fun _ => 1 / 2

/-! ### Claim C1 -/

/-- Collapsed child sitting at the origin: its stored position is never
touched by a pass. -/
def c1B : Node3D := ⟨"B", "B", 2, ⟨0, 0, 0⟩, false, []⟩

/-- Collapsed top-level branch holding `c1B`. -/
def c1A : Node3D := ⟨"A", "A", 1, ⟨9, 0, 0⟩, false, [c1B]⟩

/-- Center node at the origin. -/
def c1center : Node3D := ⟨"center", "center", 0, ⟨0, 0, 0⟩, true, []⟩

theorem c1_run :
    (repositionNodesWithCollisionDetection [c1A] c1center [] randHalf).1 =
      [{c1A with position := ⟨9, 0, 0⟩}] := by
  have hdfc9 : distanceFromCenter (⟨9, 0, 0⟩ : Position3D) = 9 :=
    @dfc_eval ⟨9, 0, 0⟩ 9 (by norm_num) (by norm_num)
  have hdfc0 : distanceFromCenter (⟨0, 0, 0⟩ : Position3D) = 0 :=
    @dfc_eval ⟨0, 0, 0⟩ 0 (by norm_num) (by norm_num)
  have henf : enforceHierarchicalDistance (⟨9, 0, 0⟩ : Position3D) ⟨0, 0, 0⟩ ⟨0, 0, 0⟩ 0.8 =
      ⟨9, 0, 0⟩ := by
    apply enforce_far
    rw [hdfc9, hdfc0]
    norm_num
  have hsafe : safeChecks
      ⟨randHalf, ⟨0, 0, 0⟩, ⟨0, 0, 0⟩,
        (enforceHierarchicalDistance (⟨9, 0, 0⟩ : Position3D) ⟨0, 0, 0⟩ ⟨0, 0, 0⟩ 0.8).z,
        [⟨0, 0, 0⟩], [], repoMinDist 0 + 0.6, some "A", some "center"⟩
      (enforceHierarchicalDistance (⟨9, 0, 0⟩ : Position3D) ⟨0, 0, 0⟩ ⟨0, 0, 0⟩ 0.8) := by
    rw [henf]
    constructor
    · intro pos hpos
      rcases List.mem_singleton.mp hpos with rfl
      refine dist3D_ge (by simp [repoMinDist]; norm_num) ?_
      simp [repoMinDist]
      norm_num
    · intro hw
      rcases hw with ⟨l, hl, -⟩
      simp at hl
  have hfs : findSafePosition ⟨0, 0, 0⟩ ⟨9, 0, 0⟩ [⟨0, 0, 0⟩] [] (repoMinDist 0)
      (some "A") (some "center") ⟨0, 0, 0⟩ randHalf 0 = (⟨9, 0, 0⟩, 0) := by
    have h1 := @findSafePosition_first ⟨0, 0, 0⟩ ⟨9, 0, 0⟩ [⟨0, 0, 0⟩] [] (repoMinDist 0)
      (some "A") (some "center") ⟨0, 0, 0⟩ randHalf 0 hsafe
    rw [henf] at h1
    exact h1
  unfold repositionNodesWithCollisionDetection
  rw [passLoop, passLoop]
  have hA : ¬(c1A.expanded = true ∧ c1A.children ≠ []) := by simp [c1A]
  rw [worker_not_expanded _ _ _ _ _ _ _ _ hA]
  dsimp only
  simp only [c1A, c1center, List.nil_append]
  rw [hfs]

/-- Claim C1, as stated, is false: in the tree produced by a full layout pass
on a collapsed branch `A` (at distance 9) holding a stale child `B` stored at
the origin, the non-root pair `(A, B)` violates
`distanceFromOrigin(B) ≥ distanceFromOrigin(A) + 0.8` — positions inside
collapsed subtrees are never re-assigned, so they never pass through
`enforceHierarchicalDistance`. -/
theorem C1_counterexample :
    ((⟨9, 0, 0⟩, ⟨0, 0, 0⟩) : Position3D × Position3D) ∈
        passAllPairs c1center.position
          (repositionNodesWithCollisionDetection [c1A] c1center [] randHalf).1 ∧
      ¬(distanceFromCenter (⟨0, 0, 0⟩ : Position3D) ≥
        distanceFromCenter (⟨9, 0, 0⟩ : Position3D) + 0.8) := by
  constructor
  · rw [c1_run]
    simp only [passAllPairs]
    refine List.mem_append.mpr (Or.inr ?_)
    rw [allPairsList_cons, allPairsUnder_eq]
    refine List.mem_append.mpr (Or.inl ?_)
    simp [c1A, c1B]
  · rw [@dfc_eval ⟨0, 0, 0⟩ 0 (by norm_num) (by norm_num),
      @dfc_eval ⟨9, 0, 0⟩ 9 (by norm_num) (by norm_num)]
    norm_num

/-- Claim C1 (amended): monotonic radial growth holds for every *visible*
non-root node `n` with parent `p` in the tree produced by a full layout pass:
`distanceFromOrigin(n) ≥ distanceFromOrigin(p) + 0.8` exactly (the embedding
works over the reals, so no tolerance is needed), because every position the
engine assigns passes through `enforceHierarchicalDistance`.  Stored positions
inside collapsed subtrees are exempt — the pass never assigns them (see the
counterexample). -/
theorem C1_theorem (nodes : List Node3D) (centerNode : Node3D)
    (existingPositions : List Position3D) (rand : ℕ → ℝ) :
    ∀ pr ∈ passVisPairs centerNode.position
        (repositionNodesWithCollisionDetection nodes centerNode existingPositions rand).1,
      distanceFromCenter pr.2 ≥ distanceFromCenter pr.1 + 0.8 := by
  unfold repositionNodesWithCollisionDetection
  exact passLoop_vis rand centerNode.position centerNode.id nodes _

/-- Single-node tree placed by a real pass, for the witness of amended C1. -/
def c1wA : Node3D := ⟨"W", "W", 1, ⟨7, 0, 0⟩, false, []⟩

theorem c1w_run :
    (repositionNodesWithCollisionDetection [c1wA] c1center [] randHalf).1 =
      [{c1wA with position := ⟨7, 0, 0⟩}] := by
  have hdfc7 : distanceFromCenter (⟨7, 0, 0⟩ : Position3D) = 7 :=
    @dfc_eval ⟨7, 0, 0⟩ 7 (by norm_num) (by norm_num)
  have hdfc0 : distanceFromCenter (⟨0, 0, 0⟩ : Position3D) = 0 :=
    @dfc_eval ⟨0, 0, 0⟩ 0 (by norm_num) (by norm_num)
  have henf : enforceHierarchicalDistance (⟨7, 0, 0⟩ : Position3D) ⟨0, 0, 0⟩ ⟨0, 0, 0⟩ 0.8 =
      ⟨7, 0, 0⟩ := by
    apply enforce_far
    rw [hdfc7, hdfc0]
    norm_num
  have hsafe : safeChecks
      ⟨randHalf, ⟨0, 0, 0⟩, ⟨0, 0, 0⟩,
        (enforceHierarchicalDistance (⟨7, 0, 0⟩ : Position3D) ⟨0, 0, 0⟩ ⟨0, 0, 0⟩ 0.8).z,
        [⟨0, 0, 0⟩], [], repoMinDist 0 + 0.6, some "W", some "center"⟩
      (enforceHierarchicalDistance (⟨7, 0, 0⟩ : Position3D) ⟨0, 0, 0⟩ ⟨0, 0, 0⟩ 0.8) := by
    rw [henf]
    constructor
    · intro pos hpos
      rcases List.mem_singleton.mp hpos with rfl
      refine dist3D_ge (by simp [repoMinDist]; norm_num) ?_
      simp [repoMinDist]
      norm_num
    · intro hw
      rcases hw with ⟨l, hl, -⟩
      simp at hl
  have hfs : findSafePosition ⟨0, 0, 0⟩ ⟨7, 0, 0⟩ [⟨0, 0, 0⟩] [] (repoMinDist 0)
      (some "W") (some "center") ⟨0, 0, 0⟩ randHalf 0 = (⟨7, 0, 0⟩, 0) := by
    have h1 := @findSafePosition_first ⟨0, 0, 0⟩ ⟨7, 0, 0⟩ [⟨0, 0, 0⟩] [] (repoMinDist 0)
      (some "W") (some "center") ⟨0, 0, 0⟩ randHalf 0 hsafe
    rw [henf] at h1
    exact h1
  unfold repositionNodesWithCollisionDetection
  rw [passLoop, passLoop]
  have hA : ¬(c1wA.expanded = true ∧ c1wA.children ≠ []) := by simp [c1wA]
  rw [worker_not_expanded _ _ _ _ _ _ _ _ hA]
  dsimp only
  simp only [c1wA, c1center, List.nil_append]
  rw [hfs]

/-- Witness for the amended C1: the single visible pair of a one-node pass
satisfies the radial-growth bound. -/
theorem C1_witness :
    distanceFromCenter (⟨7, 0, 0⟩ : Position3D) ≥
      distanceFromCenter (⟨0, 0, 0⟩ : Position3D) + 0.8 := by
  have h := C1_theorem [c1wA] c1center [] randHalf
    ((⟨0, 0, 0⟩, ⟨7, 0, 0⟩) : Position3D × Position3D) ?_
  · exact h
  · rw [c1w_run]
    simp only [passVisPairs]
    refine List.mem_append.mpr (Or.inl ?_)
    have : c1center.position = (⟨0, 0, 0⟩ : Position3D) := by simp [c1center]
    rw [this]
    simp

/-! ### Claim C9 -/

/-- Claim C9: a full layout pass updates only the `position` field of visible
nodes.  First conjunct: every input tree is related to its output tree by
`FrameOK` — ids, names, levels and expansion flags are unchanged everywhere,
expanded children correspond one-to-one, and the children of a collapsed (or
childless) node are returned untouched, stored positions included.  Second
conjunct: processing a collapsed (or childless) node contributes exactly its
own position to the collision set and its own parent edge to the intersection
set — nothing from its hidden subtree enters the accumulators for the rest of
the pass. -/
theorem C9_theorem (nodes : List Node3D) (centerNode : Node3D)
    (existingPositions : List Position3D) (rand : ℕ → ℝ) :
    List.Forall₂ FrameOK nodes
        (repositionNodesWithCollisionDetection nodes centerNode existingPositions rand).1 ∧
      ∀ (node : Node3D) (parentPos : Position3D) (level : ℕ)
        (parentNodeId : Option String) (st : LayoutState),
        ¬(node.expanded = true ∧ node.children ≠ []) →
        (repositionNodeAndChildren rand centerNode.position centerNode.id node parentPos
            level parentNodeId st).2 =
          ⟨st.positions ++ [(findSafePosition parentPos node.position st.positions st.lines
              (repoMinDist level) (some node.id) parentNodeId centerNode.position rand
              st.ctr).1],
           st.lines ++ [⟨parentPos,
              (findSafePosition parentPos node.position st.positions st.lines
                (repoMinDist level) (some node.id) parentNodeId centerNode.position rand
                st.ctr).1,
              some (parentNodeId.getD centerNode.id), some node.id⟩],
           (findSafePosition parentPos node.position st.positions st.lines
              (repoMinDist level) (some node.id) parentNodeId centerNode.position rand
              st.ctr).2⟩ := by
  constructor
  · unfold repositionNodesWithCollisionDetection
    exact passLoop_frame rand centerNode.position centerNode.id nodes _
  · intro node parentPos level parentNodeId st h
    rw [worker_not_expanded _ _ _ _ _ _ _ _ h]

/-- Concrete collapsed node for the C9 witness. -/
def c9F : Node3D := ⟨"F", "F", 1, ⟨6, 0, 0⟩, false, [⟨"G", "G", 2, ⟨1, 1, 1⟩, true, []⟩]⟩

/-- Witness for C9: processing the collapsed node `c9F` contributes exactly
its own placed position and edge to the accumulators. -/
theorem C9_witness :
    (repositionNodeAndChildren randHalf c1center.position c1center.id c9F ⟨0, 0, 0⟩ 0
        (some "center") ⟨[], [], 0⟩).2 =
      ⟨[] ++ [(findSafePosition ⟨0, 0, 0⟩ c9F.position [] [] (repoMinDist 0) (some c9F.id)
          (some "center") c1center.position randHalf 0).1],
       [] ++ [⟨⟨0, 0, 0⟩,
          (findSafePosition ⟨0, 0, 0⟩ c9F.position [] [] (repoMinDist 0) (some c9F.id)
            (some "center") c1center.position randHalf 0).1,
          some ((some "center").getD c1center.id), some c9F.id⟩],
       (findSafePosition ⟨0, 0, 0⟩ c9F.position [] [] (repoMinDist 0) (some c9F.id)
          (some "center") c1center.position randHalf 0).2⟩ :=
  (C9_theorem [] c1center [] randHalf).2 c9F ⟨0, 0, 0⟩ 0 (some "center") ⟨[], [], 0⟩
    (by simp [c9F])

/-! ### Claim C6 -/

/-- Claim C6, as stated, is false at level 1: the repositioner's own Position
Search call for a deeper node passes the constant 1.4, not `1.4 + 0.15·level`
(which would be 1.55 at level 1). -/
theorem C6_counterexample :
    repoMinDist 1 = 1.4 ∧ ¬((1.4 : ℝ) = 1.4 + 0.15 * 1) :=
  ⟨by simp [repoMinDist], by norm_num⟩

/-- Claim C6 (amended): when the repositioner places a node via Position
Search it passes `minDistance = 2.8` at level 0 and the constant `1.4` at
every deeper level; the depth-scaled formula lives in the *arranger* call for
a node's children, which uses `minDistance = 1.3 + 0.15·level` (and base
radius `1.7 + 0.2·level`). -/
theorem C6_theorem :
    (∀ (rand : ℕ → ℝ) (centerPos : Position3D) (centerId : String) (node : Node3D)
       (parentPos : Position3D) (level : ℕ) (parentNodeId : Option String)
       (st : LayoutState),
       (repositionNodeAndChildren rand centerPos centerId node parentPos level
           parentNodeId st).1.position =
         (findSafePosition parentPos node.position st.positions st.lines
           (repoMinDist level) (some node.id) parentNodeId centerPos rand st.ctr).1) ∧
    repoMinDist 0 = 2.8 ∧ (∀ level : ℕ, level ≠ 0 → repoMinDist level = 1.4) ∧
    (∀ (rand : ℕ → ℝ) (centerPos : Position3D) (centerId : String) (node : Node3D)
       (parentPos : Position3D) (level : ℕ) (parentNodeId : Option String)
       (st : LayoutState), node.expanded = true ∧ node.children ≠ [] →
       (repositionNodeAndChildren rand centerPos centerId node parentPos level
           parentNodeId st).1.children =
         (let r := findSafePosition parentPos node.position st.positions st.lines
            (repoMinDist level) (some node.id) parentNodeId centerPos rand st.ctr
          let st1 : LayoutState := ⟨st.positions ++ [r.1],
            st.lines ++ [⟨parentPos, r.1, some (parentNodeId.getD centerId), some node.id⟩],
            r.2⟩
          let a := arrangeChildrenAroundParent r.1 node.children st1.positions st1.lines
            (1.7 + (level : ℝ) * 0.2) (1.3 + (level : ℝ) * 0.15) (some node.id) centerPos
            rand st1.ctr
          (placeChildren rand centerPos centerId node.children a.1 r.1 node.id level
            ⟨st1.positions, st1.lines, a.2⟩).1)) := by
  refine ⟨?_, by simp [repoMinDist], ?_, ?_⟩
  · intro rand centerPos centerId node parentPos level parentNodeId st
    exact worker_position ..
  · intro level h
    simp [repoMinDist, h]
  · intro rand centerPos centerId node parentPos level parentNodeId st h
    rw [worker_expanded _ _ _ _ _ _ _ _ h]

/-- Witness for the amended C6: concrete instances of both `repoMinDist`
values, and the children equation at a concrete expanded node. -/
theorem C6_witness :
    repoMinDist 0 = 2.8 ∧ repoMinDist 2 = 1.4 :=
  ⟨C6_theorem.2.1, C6_theorem.2.2.1 2 (by norm_num)⟩

/-! ### Claim C4 -/

/-- Each child committed by `placeChildren` is placed a second time: its
final position is a `findSafePosition` result whose parent-position argument
*and* preferred-position argument are both the arranger-assigned position
`cps[i]`, at `minDist = repoMinDist (level+1)`; consequently the final
position is at least 0.8 farther from the origin than `cps[i]`. -/
theorem placeChildren_get (rand : ℕ → ℝ) (centerPos : Position3D) (centerId : String) :
    ∀ (cs : List Node3D) (cps : List Position3D) (nodePos : Position3D) (nid : String)
      (level : ℕ) (st : LayoutState) (i : ℕ) (child : Node3D) (firstp : Position3D),
      cs[i]? = some child → cps[i]? = some firstp →
      ∃ (st1 : LayoutState) (node' : Node3D),
        ((placeChildren rand centerPos centerId cs cps nodePos nid level st).1)[i]? =
          some node' ∧
        node'.position =
          (findSafePosition firstp firstp st1.positions st1.lines
            (repoMinDist (level + 1)) (some child.id) (some nid) centerPos rand st1.ctr).1 ∧
        distanceFromCenter node'.position ≥ distanceFromCenter firstp + 0.8 := by
  intro cs
  induction cs with
  | nil =>
    intro cps nodePos nid level st i child firstp hchild
    simp at hchild
  | cons chd rest ih =>
    intro cps nodePos nid level st i child firstp hchild hfirst
    rcases cps with _ | ⟨c0, crest⟩
    · simp at hfirst
    · cases i with
      | zero =>
        simp only [List.getElem?_cons_zero, Option.some.injEq] at hchild hfirst
        rw [← hchild, ← hfirst]
        refine ⟨⟨st.positions ++ [c0],
          st.lines ++ [⟨nodePos, c0, some nid, some chd.id⟩], st.ctr⟩,
          (repositionNodeAndChildren rand centerPos centerId
            {chd with position := c0} c0 (level + 1) (some nid)
            ⟨st.positions ++ [c0],
             st.lines ++ [⟨nodePos, c0, some nid, some chd.id⟩], st.ctr⟩).1,
          ?_, ?_, ?_⟩
        · rw [placeChildren]
          simp
        · exact worker_position ..
        · exact (worker_vis ..).1
      | succ j =>
        simp only [List.getElem?_cons_succ] at hchild hfirst
        obtain ⟨st1, node', hsome, hpos, hnorm⟩ := ih crest nodePos nid level
          (repositionNodeAndChildren rand centerPos centerId {chd with position := c0} c0
            (level + 1) (some nid)
            ⟨st.positions ++ [c0], st.lines ++ [⟨nodePos, c0, some nid, some chd.id⟩],
             st.ctr⟩).2 j child firstp hchild hfirst
        refine ⟨st1, node', ?_, hpos, hnorm⟩
        rw [placeChildren]
        simpa using hsome

/-- Claim C4: during a layout pass every non-top-level node whose parent is
expanded is placed twice.  First conjunct: the recursion hands each child to
`repositionNodeAndChildren` right after the arranger's positions are
committed.  Second conjunct: the final committed position of child `i` is a
`findSafePosition` result receiving the arranger-assigned position `cps[i]`
as *both* the parent position and the preferred position, and therefore ends
at least 0.8 farther from the origin than the arranger-assigned position. -/
theorem C4_theorem :
    (∀ (rand : ℕ → ℝ) (centerPos : Position3D) (centerId : String) (node : Node3D)
       (parentPos : Position3D) (level : ℕ) (parentNodeId : Option String)
       (st : LayoutState), node.expanded = true ∧ node.children ≠ [] →
       (repositionNodeAndChildren rand centerPos centerId node parentPos level
           parentNodeId st).1.children =
         (let r := findSafePosition parentPos node.position st.positions st.lines
            (repoMinDist level) (some node.id) parentNodeId centerPos rand st.ctr
          let st1 : LayoutState := ⟨st.positions ++ [r.1],
            st.lines ++ [⟨parentPos, r.1, some (parentNodeId.getD centerId), some node.id⟩],
            r.2⟩
          let a := arrangeChildrenAroundParent r.1 node.children st1.positions st1.lines
            (1.7 + (level : ℝ) * 0.2) (1.3 + (level : ℝ) * 0.15) (some node.id) centerPos
            rand st1.ctr
          (placeChildren rand centerPos centerId node.children a.1 r.1 node.id level
            ⟨st1.positions, st1.lines, a.2⟩).1)) ∧
    (∀ (rand : ℕ → ℝ) (centerPos : Position3D) (centerId : String) (cs : List Node3D)
       (cps : List Position3D) (nodePos : Position3D) (nid : String) (level : ℕ)
       (st : LayoutState) (i : ℕ) (child : Node3D) (firstp : Position3D),
       cs[i]? = some child → cps[i]? = some firstp →
       ∃ (st1 : LayoutState) (node' : Node3D),
         ((placeChildren rand centerPos centerId cs cps nodePos nid level st).1)[i]? =
           some node' ∧
         node'.position =
           (findSafePosition firstp firstp st1.positions st1.lines
             (repoMinDist (level + 1)) (some child.id) (some nid) centerPos rand
             st1.ctr).1 ∧
         distanceFromCenter node'.position ≥ distanceFromCenter firstp + 0.8) := by
  constructor
  · intro rand centerPos centerId node parentPos level parentNodeId st h
    rw [worker_expanded _ _ _ _ _ _ _ _ h]
  · exact placeChildren_get

/-- Witness for C4 at a concrete one-child list: the committed position is a
double placement fed with the arranger position `(0, 3, 0)` on both sides,
and ends at least `3 + 0.8` from the origin. -/
theorem C4_witness :
    ∃ (st1 : LayoutState) (node' : Node3D),
      ((placeChildren randHalf ⟨0, 0, 0⟩ "center" [⟨"y", "y", 1, ⟨0, 0, 0⟩, false, []⟩]
          [⟨0, 3, 0⟩] ⟨0, 1, 0⟩ "x" 0 ⟨[], [], 0⟩).1)[0]? = some node' ∧
      node'.position =
        (findSafePosition ⟨0, 3, 0⟩ ⟨0, 3, 0⟩ st1.positions st1.lines (repoMinDist 1)
          (some "y") (some "x") ⟨0, 0, 0⟩ randHalf st1.ctr).1 ∧
      distanceFromCenter node'.position ≥ distanceFromCenter (⟨0, 3, 0⟩ : Position3D) + 0.8 :=
  C4_theorem.2 randHalf ⟨0, 0, 0⟩ "center" [⟨"y", "y", 1, ⟨0, 0, 0⟩, false, []⟩]
    [⟨0, 3, 0⟩] ⟨0, 1, 0⟩ "x" 0 ⟨[], [], 0⟩ 0 ⟨"y", "y", 1, ⟨0, 0, 0⟩, false, []⟩ ⟨0, 3, 0⟩
    (by simp) (by simp)

/-! ### Claim C8 -/

/-- Claim C8, as stated, is false: the source switches to the
parent-to-candidate direction already when the candidate lies *within 0.001*
of the origin, not only when it coincides with it.  At candidate
`(0.0005, 0, 0)` with parent `(5, 0, 0)` the code rescales along the parent
direction and returns `(-5.8, 0, 0)`, while the claim's description (origin
direction, since the candidate does not coincide with the origin) yields
`(5.8, 0, 0)`. -/
theorem C8_counterexample :
    enforceHierarchicalDistance ⟨0.0005, 0, 0⟩ ⟨5, 0, 0⟩ ⟨0, 0, 0⟩ 0.8 = ⟨-5.8, 0, 0⟩ ∧
      enforceSpecCoincide ⟨0.0005, 0, 0⟩ ⟨5, 0, 0⟩ 0.8 = ⟨5.8, 0, 0⟩ ∧
      ((⟨-5.8, 0, 0⟩ : Position3D) ≠ ⟨5.8, 0, 0⟩) := by
  have hc : distanceFromCenter (⟨0.0005, 0, 0⟩ : Position3D) = 0.0005 :=
    @dfc_eval ⟨0.0005, 0, 0⟩ 0.0005 (by norm_num) (by norm_num)
  have hp : distanceFromCenter (⟨5, 0, 0⟩ : Position3D) = 5 :=
    @dfc_eval ⟨5, 0, 0⟩ 5 (by norm_num) (by norm_num)
  have h1 : ¬(distanceFromCenter (⟨0.0005, 0, 0⟩ : Position3D) ≥
      distanceFromCenter (⟨5, 0, 0⟩ : Position3D) + 0.8) := by
    rw [hc, hp]; norm_num
  refine ⟨?_, ?_, ?_⟩
  · have h2 : distanceFromCenter (⟨0.0005, 0, 0⟩ : Position3D) < 0.001 := by
      rw [hc]; norm_num
    have hs : Real.sqrt (((⟨0.0005, 0, 0⟩ : Position3D).x - (⟨5, 0, 0⟩ : Position3D).x) ^ 2 +
        ((⟨0.0005, 0, 0⟩ : Position3D).y - (⟨5, 0, 0⟩ : Position3D).y) ^ 2 +
        ((⟨0.0005, 0, 0⟩ : Position3D).z - (⟨5, 0, 0⟩ : Position3D).z) ^ 2) = 4.9995 :=
      sqrt_val (by norm_num) (by norm_num)
    have h3 : Real.sqrt (((⟨0.0005, 0, 0⟩ : Position3D).x - (⟨5, 0, 0⟩ : Position3D).x) ^ 2 +
        ((⟨0.0005, 0, 0⟩ : Position3D).y - (⟨5, 0, 0⟩ : Position3D).y) ^ 2 +
        ((⟨0.0005, 0, 0⟩ : Position3D).z - (⟨5, 0, 0⟩ : Position3D).z) ^ 2) > 0.001 := by
      rw [hs]; norm_num
    rw [enforce_parentdir ⟨0, 0, 0⟩ h1 h2 h3, hs, hp]
    simp only [Position3D.mk.injEq]
    norm_num
  · unfold enforceSpecCoincide
    rw [if_neg h1]
    rw [if_neg (by norm_num : ¬((⟨0.0005, 0, 0⟩ : Position3D).x = 0 ∧
      (⟨0.0005, 0, 0⟩ : Position3D).y = 0 ∧ (⟨0.0005, 0, 0⟩ : Position3D).z = 0))]
    rw [hc, hp]
    simp only [Position3D.mk.injEq]
    norm_num
  · intro h
    have hx := congrArg Position3D.x h
    norm_num at hx

/-- Claim C8 (amended): the full contract of `enforceHierarchicalDistance`,
with the source's 0.001 thresholds made explicit.  A far-enough candidate is
returned unchanged; otherwise the result lies at exactly
`distanceFromOrigin(parent) + gap` from the origin, along the direction from
the origin to the candidate when the candidate is at least 0.001 from the
origin, else along the parent-to-candidate direction when that has length
above 0.001, else along the fixed unit vector `(1, 0, 0)`. -/
theorem C8_theorem (cand par ctr : Position3D) {g : ℝ} (hg : 0 ≤ g) :
    (distanceFromCenter cand ≥ distanceFromCenter par + g →
      enforceHierarchicalDistance cand par ctr g = cand) ∧
    (¬(distanceFromCenter cand ≥ distanceFromCenter par + g) →
      distanceFromCenter (enforceHierarchicalDistance cand par ctr g) =
          distanceFromCenter par + g ∧
        (¬(distanceFromCenter cand < 0.001) →
          enforceHierarchicalDistance cand par ctr g =
            ⟨cand.x / distanceFromCenter cand * (distanceFromCenter par + g),
             cand.y / distanceFromCenter cand * (distanceFromCenter par + g),
             cand.z / distanceFromCenter cand * (distanceFromCenter par + g)⟩) ∧
        (distanceFromCenter cand < 0.001 →
          (Real.sqrt ((cand.x - par.x) ^ 2 + (cand.y - par.y) ^ 2 + (cand.z - par.z) ^ 2) >
              0.001 →
            enforceHierarchicalDistance cand par ctr g =
              ⟨(cand.x - par.x) /
                  Real.sqrt ((cand.x - par.x) ^ 2 + (cand.y - par.y) ^ 2 +
                    (cand.z - par.z) ^ 2) * (distanceFromCenter par + g),
               (cand.y - par.y) /
                  Real.sqrt ((cand.x - par.x) ^ 2 + (cand.y - par.y) ^ 2 +
                    (cand.z - par.z) ^ 2) * (distanceFromCenter par + g),
               (cand.z - par.z) /
                  Real.sqrt ((cand.x - par.x) ^ 2 + (cand.y - par.y) ^ 2 +
                    (cand.z - par.z) ^ 2) * (distanceFromCenter par + g)⟩) ∧
          (¬(Real.sqrt ((cand.x - par.x) ^ 2 + (cand.y - par.y) ^ 2 +
              (cand.z - par.z) ^ 2) > 0.001) →
            enforceHierarchicalDistance cand par ctr g =
              ⟨distanceFromCenter par + g, 0, 0⟩))) := by
  constructor
  · intro h
    exact enforce_far h
  · intro h
    refine ⟨?_, ?_, ?_⟩
    · rcases enforce_cases cand par ctr hg with ⟨h1, _⟩ | ⟨_, h2⟩
      · exact absurd h1 h
      · exact h2
    · intro h2
      exact enforce_rescale ctr h h2
    · intro h2
      exact ⟨fun h3 => enforce_parentdir ctr h h2 h3, fun h3 => enforce_default ctr h h2 h3⟩

/-- Witness for the amended C8: a too-close candidate `(0, 0, 3)` under
parent `(0, 0, 4)` is pushed to exactly `4 + 0.8` from the origin. -/
theorem C8_witness :
    distanceFromCenter (enforceHierarchicalDistance ⟨0, 0, 3⟩ ⟨0, 0, 4⟩ ⟨0, 0, 0⟩ 0.8) =
      distanceFromCenter (⟨0, 0, 4⟩ : Position3D) + 0.8 := by
  have h3 : distanceFromCenter (⟨0, 0, 3⟩ : Position3D) = 3 :=
    @dfc_eval ⟨0, 0, 3⟩ 3 (by norm_num) (by norm_num)
  have h4 : distanceFromCenter (⟨0, 0, 4⟩ : Position3D) = 4 :=
    @dfc_eval ⟨0, 0, 4⟩ 4 (by norm_num) (by norm_num)
  exact ((C8_theorem ⟨0, 0, 3⟩ ⟨0, 0, 4⟩ ⟨0, 0, 0⟩ (by norm_num)).2
    (by rw [h3, h4]; norm_num)).1

/-! ### Claim C10 -/

/-- Claim C10, as stated, is false on its substitution clause: when the
rescaling direction (origin to candidate) has zero length but the parent is
elsewhere, the engine substitutes the *parent* direction, not the fixed
default unit direction.  At candidate `(0, 0, 0)` with parent `(3, 0, 0)`
the code returns `(-3.8, 0, 0)`; substituting the fixed default direction
would return `(3.8, 0, 0)`. -/
theorem C10_counterexample :
    enforceHierarchicalDistance ⟨0, 0, 0⟩ ⟨3, 0, 0⟩ ⟨0, 0, 0⟩ 0.8 = ⟨-3.8, 0, 0⟩ ∧
      enforceFixedDefault ⟨0, 0, 0⟩ ⟨3, 0, 0⟩ 0.8 = ⟨3.8, 0, 0⟩ ∧
      ((⟨-3.8, 0, 0⟩ : Position3D) ≠ ⟨3.8, 0, 0⟩) := by
  have hc : distanceFromCenter (⟨0, 0, 0⟩ : Position3D) = 0 :=
    @dfc_eval ⟨0, 0, 0⟩ 0 (by norm_num) (by norm_num)
  have hp : distanceFromCenter (⟨3, 0, 0⟩ : Position3D) = 3 :=
    @dfc_eval ⟨3, 0, 0⟩ 3 (by norm_num) (by norm_num)
  have h1 : ¬(distanceFromCenter (⟨0, 0, 0⟩ : Position3D) ≥
      distanceFromCenter (⟨3, 0, 0⟩ : Position3D) + 0.8) := by
    rw [hc, hp]; norm_num
  refine ⟨?_, ?_, ?_⟩
  · have h2 : distanceFromCenter (⟨0, 0, 0⟩ : Position3D) < 0.001 := by
      rw [hc]; norm_num
    have hs : Real.sqrt (((⟨0, 0, 0⟩ : Position3D).x - (⟨3, 0, 0⟩ : Position3D).x) ^ 2 +
        ((⟨0, 0, 0⟩ : Position3D).y - (⟨3, 0, 0⟩ : Position3D).y) ^ 2 +
        ((⟨0, 0, 0⟩ : Position3D).z - (⟨3, 0, 0⟩ : Position3D).z) ^ 2) = 3 :=
      sqrt_val (by norm_num) (by norm_num)
    have h3 : Real.sqrt (((⟨0, 0, 0⟩ : Position3D).x - (⟨3, 0, 0⟩ : Position3D).x) ^ 2 +
        ((⟨0, 0, 0⟩ : Position3D).y - (⟨3, 0, 0⟩ : Position3D).y) ^ 2 +
        ((⟨0, 0, 0⟩ : Position3D).z - (⟨3, 0, 0⟩ : Position3D).z) ^ 2) > 0.001 := by
      rw [hs]; norm_num
    rw [enforce_parentdir ⟨0, 0, 0⟩ h1 h2 h3, hs, hp]
    simp only [Position3D.mk.injEq]
    norm_num
  · unfold enforceFixedDefault
    rw [if_neg h1]
    rw [if_pos (by rw [hc]; norm_num : distanceFromCenter (⟨0, 0, 0⟩ : Position3D) < 0.001)]
    rw [hp]
    simp only [Position3D.mk.injEq]
    norm_num
  · intro h
    have hx := congrArg Position3D.x h
    norm_num at hx

/-- Claim C10 (amended): the determinant guard returns non-intersecting
whenever `|det| < 1e-4`, so the parametric division is never performed on a
near-singular system; and the engine never divides by a (near-)zero
direction length: a candidate within 0.001 of the origin is rescaled along
the parent-to-candidate direction when that has length above 0.001, and
along the fixed default unit direction `(1, 0, 0)` only when both are
(near-)zero. -/
theorem C10_theorem :
    (∀ (l1s l1e l2s l2e : Pt2) (buffer : ℝ),
      |(l1e.x - l1s.x) * (l2e.y - l2s.y) - (l2e.x - l2s.x) * (l1e.y - l1s.y)| < 0.0001 →
      ¬doLinesIntersect l1s l1e l2s l2e buffer) ∧
    (∀ (cand par ctr : Position3D) (g : ℝ),
      ¬(distanceFromCenter cand ≥ distanceFromCenter par + g) →
      distanceFromCenter cand < 0.001 →
      (Real.sqrt ((cand.x - par.x) ^ 2 + (cand.y - par.y) ^ 2 + (cand.z - par.z) ^ 2) >
          0.001 →
        enforceHierarchicalDistance cand par ctr g =
          ⟨(cand.x - par.x) /
              Real.sqrt ((cand.x - par.x) ^ 2 + (cand.y - par.y) ^ 2 + (cand.z - par.z) ^ 2) *
              (distanceFromCenter par + g),
           (cand.y - par.y) /
              Real.sqrt ((cand.x - par.x) ^ 2 + (cand.y - par.y) ^ 2 + (cand.z - par.z) ^ 2) *
              (distanceFromCenter par + g),
           (cand.z - par.z) /
              Real.sqrt ((cand.x - par.x) ^ 2 + (cand.y - par.y) ^ 2 + (cand.z - par.z) ^ 2) *
              (distanceFromCenter par + g)⟩) ∧
      (¬(Real.sqrt ((cand.x - par.x) ^ 2 + (cand.y - par.y) ^ 2 + (cand.z - par.z) ^ 2) >
          0.001) →
        enforceHierarchicalDistance cand par ctr g =
          ⟨distanceFromCenter par + g, 0, 0⟩)) := by
  constructor
  · intro l1s l1e l2s l2e buffer h
    unfold doLinesIntersect
    dsimp only
    rw [if_pos h]
    exact not_false
  · intro cand par ctr g h1 h2
    exact ⟨fun h3 => enforce_parentdir ctr h1 h2 h3, fun h3 => enforce_default ctr h1 h2 h3⟩

/-- Witness for the amended C10: parallel unit segments have determinant 0,
so the guard reports no intersection. -/
theorem C10_witness :
    ¬doLinesIntersect ⟨0, 0⟩ ⟨1, 0⟩ ⟨0, 1⟩ ⟨1, 1⟩ 0.3 :=
  C10_theorem.1 ⟨0, 0⟩ ⟨1, 0⟩ ⟨0, 1⟩ ⟨1, 1⟩ 0.3 (by norm_num)

/-! ### Claim C5 -/

/-- Claim C5, as stated, is false: the buffer is divided by the *longer* of
the two segments' lengths (`Math.max`), not the shorter.  On a length-1
segment against a length-2 segment with `lambda = 1.3`, the code's margin is
`0.5 / 2 = 0.25` (no intersection, since `1.3 ≥ 1.25`) while the claim's
shorter-length margin `0.5 / 1 = 0.5` would report an intersection. -/
theorem C5_counterexample :
    ¬doLinesIntersect ⟨0, 0⟩ ⟨1, 0⟩ ⟨1.3, -1⟩ ⟨1.3, 1⟩ 0.5 ∧
      doLinesIntersectShorter ⟨0, 0⟩ ⟨1, 0⟩ ⟨1.3, -1⟩ ⟨1.3, 1⟩ 0.5 := by
  have hl1 : Real.sqrt (((1 : ℝ) - 0) ^ 2 + ((0 : ℝ) - 0) ^ 2) = 1 :=
    sqrt_val (by norm_num) (by norm_num)
  have hl2 : Real.sqrt (((1.3 : ℝ) - 1.3) ^ 2 + ((1 : ℝ) - (-1)) ^ 2) = 2 :=
    sqrt_val (by norm_num) (by norm_num)
  constructor
  · unfold doLinesIntersect
    dsimp only
    rw [if_neg (by norm_num)]
    rw [hl1, hl2]
    have hmax : max (1 : ℝ) 2 = 2 := by norm_num
    rw [hmax]
    intro hcontra
    have := hcontra.2.1
    norm_num at this
  · unfold doLinesIntersectShorter
    dsimp only
    rw [if_neg (by norm_num)]
    rw [hl1, hl2]
    have hmin : min (1 : ℝ) 2 = 1 := by norm_num
    rw [hmin]
    norm_num

/-- Claim C5 (amended): the intersection test accepts exactly when the
determinant clears the near-parallel guard and both parameters lie in the
range `[0, 1]` inflated by `buffer / max(len1, len2)` — the *longer*
segment's length.  The spec's shorter-length variant is more permissive:
whenever the code reports an intersection (with non-degenerate segments and
a non-negative buffer), the shorter-length variant does too.  The engine
tests a proposed edge against each existing non-adjacent edge with buffer
0.5. -/
theorem C5_theorem :
    (∀ (l1s l1e l2s l2e : Pt2) (buffer : ℝ),
      doLinesIntersect l1s l1e l2s l2e buffer ↔
        (¬(|(l1e.x - l1s.x) * (l2e.y - l2s.y) - (l2e.x - l2s.x) * (l1e.y - l1s.y)| <
            0.0001) ∧
          ((l2e.y - l2s.y) * (l2e.x - l1s.x) + (l2s.x - l2e.x) * (l2e.y - l1s.y)) /
              ((l1e.x - l1s.x) * (l2e.y - l2s.y) - (l2e.x - l2s.x) * (l1e.y - l1s.y)) >
            -(buffer / max (Real.sqrt ((l1e.x - l1s.x) ^ 2 + (l1e.y - l1s.y) ^ 2))
              (Real.sqrt ((l2e.x - l2s.x) ^ 2 + (l2e.y - l2s.y) ^ 2))) ∧
          ((l2e.y - l2s.y) * (l2e.x - l1s.x) + (l2s.x - l2e.x) * (l2e.y - l1s.y)) /
              ((l1e.x - l1s.x) * (l2e.y - l2s.y) - (l2e.x - l2s.x) * (l1e.y - l1s.y)) <
            1 + buffer / max (Real.sqrt ((l1e.x - l1s.x) ^ 2 + (l1e.y - l1s.y) ^ 2))
              (Real.sqrt ((l2e.x - l2s.x) ^ 2 + (l2e.y - l2s.y) ^ 2)) ∧
          ((l1s.y - l1e.y) * (l2e.x - l1s.x) + (l1e.x - l1s.x) * (l2e.y - l1s.y)) /
              ((l1e.x - l1s.x) * (l2e.y - l2s.y) - (l2e.x - l2s.x) * (l1e.y - l1s.y)) >
            -(buffer / max (Real.sqrt ((l1e.x - l1s.x) ^ 2 + (l1e.y - l1s.y) ^ 2))
              (Real.sqrt ((l2e.x - l2s.x) ^ 2 + (l2e.y - l2s.y) ^ 2))) ∧
          ((l1s.y - l1e.y) * (l2e.x - l1s.x) + (l1e.x - l1s.x) * (l2e.y - l1s.y)) /
              ((l1e.x - l1s.x) * (l2e.y - l2s.y) - (l2e.x - l2s.x) * (l1e.y - l1s.y)) <
            1 + buffer / max (Real.sqrt ((l1e.x - l1s.x) ^ 2 + (l1e.y - l1s.y) ^ 2))
              (Real.sqrt ((l2e.x - l2s.x) ^ 2 + (l2e.y - l2s.y) ^ 2)))) ∧
    (∀ (l1s l1e l2s l2e : Pt2) (buffer : ℝ), 0 ≤ buffer →
      0 < Real.sqrt ((l1e.x - l1s.x) ^ 2 + (l1e.y - l1s.y) ^ 2) →
      0 < Real.sqrt ((l2e.x - l2s.x) ^ 2 + (l2e.y - l2s.y) ^ 2) →
      doLinesIntersect l1s l1e l2s l2e buffer →
      doLinesIntersectShorter l1s l1e l2s l2e buffer) ∧
    (∀ (proposedStart proposedEnd : Position3D) (existingLines : List Line3D)
       (a b : Option String),
      wouldLineIntersect proposedStart proposedEnd existingLines a b ↔
        ∃ l ∈ existingLines, lineNotSkipped l a b ∧
          doLinesIntersect ⟨proposedStart.x, proposedStart.y⟩ ⟨proposedEnd.x, proposedEnd.y⟩
            ⟨l.start.x, l.start.y⟩ ⟨l.endPos.x, l.endPos.y⟩ 0.5) := by
  refine ⟨?_, ?_, ?_⟩
  · intro l1s l1e l2s l2e buffer
    unfold doLinesIntersect
    dsimp only
    by_cases hdet : |(l1e.x - l1s.x) * (l2e.y - l2s.y) - (l2e.x - l2s.x) * (l1e.y - l1s.y)| <
        0.0001
    · rw [if_pos hdet]
      simp [hdet]
    · rw [if_neg hdet]
      simp only [hdet, not_false_iff, true_and]
  · intro l1s l1e l2s l2e buffer hb h1 h2
    unfold doLinesIntersect doLinesIntersectShorter
    dsimp only
    by_cases hdet : |(l1e.x - l1s.x) * (l2e.y - l2s.y) - (l2e.x - l2s.x) * (l1e.y - l1s.y)| <
        0.0001
    · rw [if_pos hdet]
      exact False.elim
    · rw [if_neg hdet, if_neg hdet]
      intro hcode
      have hmm : buffer / max (Real.sqrt ((l1e.x - l1s.x) ^ 2 + (l1e.y - l1s.y) ^ 2))
            (Real.sqrt ((l2e.x - l2s.x) ^ 2 + (l2e.y - l2s.y) ^ 2)) ≤
          buffer / min (Real.sqrt ((l1e.x - l1s.x) ^ 2 + (l1e.y - l1s.y) ^ 2))
            (Real.sqrt ((l2e.x - l2s.x) ^ 2 + (l2e.y - l2s.y) ^ 2)) := by
        apply div_le_div_of_nonneg_left hb
        · exact lt_min h1 h2
        · exact min_le_max
      obtain ⟨ha, hb2, hc, hd⟩ := hcode
      exact ⟨by linarith, by linarith, by linarith, by linarith⟩
  · intro proposedStart proposedEnd existingLines a b
    exact Iff.rfl

/-- Witness for the amended C5: two crossing length-2 segments are reported
as intersecting by the code, hence also by the spec's shorter-length
variant. -/
theorem C5_witness :
    doLinesIntersectShorter ⟨0, 0⟩ ⟨2, 0⟩ ⟨1, -1⟩ ⟨1, 1⟩ 0.5 := by
  have hl1 : Real.sqrt (((2 : ℝ) - 0) ^ 2 + ((0 : ℝ) - 0) ^ 2) = 2 :=
    sqrt_val (by norm_num) (by norm_num)
  have hl2 : Real.sqrt (((1 : ℝ) - 1) ^ 2 + ((1 : ℝ) - (-1)) ^ 2) = 2 :=
    sqrt_val (by norm_num) (by norm_num)
  refine C5_theorem.2.1 ⟨0, 0⟩ ⟨2, 0⟩ ⟨1, -1⟩ ⟨1, 1⟩ 0.5 (by norm_num) ?_ ?_ ?_
  · dsimp only
    rw [hl1]
    norm_num
  · dsimp only
    rw [hl2]
    norm_num
  · unfold doLinesIntersect
    dsimp only
    rw [if_neg (by norm_num)]
    rw [hl1, hl2]
    have hmax : max (2 : ℝ) 2 = 2 := by norm_num
    rw [hmax]
    norm_num

/-! ### Claim C3 -/

/-- Evaluation interface for `doLinesIntersect`: name the determinant, the
two parameters and the margin, then check the four inequalities. -/
theorem doLI_eval (l1s l1e l2s l2e : Pt2) (buffer det lam gam m : ℝ)
    (hdet : (l1e.x - l1s.x) * (l2e.y - l2s.y) - (l2e.x - l2s.x) * (l1e.y - l1s.y) = det)
    (hd : ¬(|det| < 0.0001))
    (hlam : ((l2e.y - l2s.y) * (l2e.x - l1s.x) + (l2s.x - l2e.x) * (l2e.y - l1s.y)) / det =
      lam)
    (hgam : ((l1s.y - l1e.y) * (l2e.x - l1s.x) + (l1e.x - l1s.x) * (l2e.y - l1s.y)) / det =
      gam)
    (hm : buffer / max (Real.sqrt ((l1e.x - l1s.x) ^ 2 + (l1e.y - l1s.y) ^ 2))
      (Real.sqrt ((l2e.x - l2s.x) ^ 2 + (l2e.y - l2s.y) ^ 2)) = m)
    (h1 : lam > -m) (h2 : lam < 1 + m) (h3 : gam > -m) (h4 : gam < 1 + m) :
    doLinesIntersect l1s l1e l2s l2e buffer := by
  unfold doLinesIntersect
  dsimp only
  rw [hdet, if_neg hd, hlam, hgam, hm]
  exact ⟨h1, h2, h3, h4⟩

/-- A segment from the origin to `(Tx, Ty)` with `|Ty|` above the determinant
threshold crosses the x-axis segment from `(-1, 0)` to `(1, 0)`: the
intersection sits at the proposed segment's start (`lambda = 0`) and the
killer line's midpoint (`gamma = 1/2`). -/
theorem killY (Tx Ty : ℝ) (h : 0.00005 ≤ |Ty|) :
    doLinesIntersect ⟨0, 0⟩ ⟨Tx, Ty⟩ ⟨-1, 0⟩ ⟨1, 0⟩ 0.5 := by
  have hTy : Ty ≠ 0 := by
    intro h0
    rw [h0, abs_zero] at h
    norm_num at h
  have hden : (0 : ℝ) <
      max (Real.sqrt ((Tx - 0) ^ 2 + (Ty - 0) ^ 2))
        (Real.sqrt (((1 : ℝ) - -1) ^ 2 + ((0 : ℝ) - 0) ^ 2)) := by
    have h2 : Real.sqrt (((1 : ℝ) - -1) ^ 2 + ((0 : ℝ) - 0) ^ 2) = 2 :=
      sqrt_val (by norm_num) (by norm_num)
    calc (0 : ℝ) < 2 := by norm_num
    _ = Real.sqrt (((1 : ℝ) - -1) ^ 2 + ((0 : ℝ) - 0) ^ 2) := h2.symm
    _ ≤ _ := le_max_right _ _
  have hmpos : (0 : ℝ) <
      0.5 / max (Real.sqrt ((Tx - 0) ^ 2 + (Ty - 0) ^ 2))
        (Real.sqrt (((1 : ℝ) - -1) ^ 2 + ((0 : ℝ) - 0) ^ 2)) :=
    div_pos (by norm_num) hden
  refine doLI_eval ⟨0, 0⟩ ⟨Tx, Ty⟩ ⟨-1, 0⟩ ⟨1, 0⟩ 0.5 (-(2 * Ty)) 0 (1 / 2) _ ?_ ?_ ?_ ?_ rfl
    ?_ ?_ ?_ ?_
  · dsimp only
    ring
  · rw [abs_neg, abs_mul]
    intro hcontra
    rw [abs_of_nonneg (by norm_num : (0:ℝ) ≤ 2)] at hcontra
    have := abs_nonneg Ty
    nlinarith
  · dsimp only
    rw [show ((0 : ℝ) - 0) * (1 - 0) + (-1 - 1) * (0 - 0) = 0 by ring]
    exact zero_div _
  · dsimp only
    rw [show ((0 : ℝ) - Ty) * (1 - 0) + (Tx - 0) * (0 - 0) = -Ty by ring]
    rw [div_eq_iff (by simpa using hTy : -(2 * Ty) ≠ 0)]
    ring
  · dsimp only
    linarith [hmpos]
  · dsimp only
    linarith [hmpos]
  · dsimp only
    linarith [hmpos]
  · dsimp only
    linarith [hmpos]

/-- As `killY` for the y-axis killer segment from `(0, -1)` to `(0, 1)`. -/
theorem killX (Tx Ty : ℝ) (h : 0.00005 ≤ |Tx|) :
    doLinesIntersect ⟨0, 0⟩ ⟨Tx, Ty⟩ ⟨0, -1⟩ ⟨0, 1⟩ 0.5 := by
  have hTx : Tx ≠ 0 := by
    intro h0
    rw [h0, abs_zero] at h
    norm_num at h
  have hden : (0 : ℝ) <
      max (Real.sqrt ((Tx - 0) ^ 2 + (Ty - 0) ^ 2))
        (Real.sqrt (((0 : ℝ) - 0) ^ 2 + ((1 : ℝ) - -1) ^ 2)) := by
    have h2 : Real.sqrt (((0 : ℝ) - 0) ^ 2 + ((1 : ℝ) - -1) ^ 2) = 2 :=
      sqrt_val (by norm_num) (by norm_num)
    calc (0 : ℝ) < 2 := by norm_num
    _ = Real.sqrt (((0 : ℝ) - 0) ^ 2 + ((1 : ℝ) - -1) ^ 2) := h2.symm
    _ ≤ _ := le_max_right _ _
  have hmpos : (0 : ℝ) <
      0.5 / max (Real.sqrt ((Tx - 0) ^ 2 + (Ty - 0) ^ 2))
        (Real.sqrt (((0 : ℝ) - 0) ^ 2 + ((1 : ℝ) - -1) ^ 2)) :=
    div_pos (by norm_num) hden
  refine doLI_eval ⟨0, 0⟩ ⟨Tx, Ty⟩ ⟨0, -1⟩ ⟨0, 1⟩ 0.5 (2 * Tx) 0 (1 / 2) _ ?_ ?_ ?_ ?_ rfl
    ?_ ?_ ?_ ?_
  · dsimp only
    ring
  · rw [abs_mul]
    intro hcontra
    rw [abs_of_nonneg (by norm_num : (0:ℝ) ≤ 2)] at hcontra
    have := abs_nonneg Tx
    nlinarith
  · dsimp only
    rw [show ((1 : ℝ) - -1) * (0 - 0) + (0 - 0) * (1 - 0) = 0 by ring]
    exact zero_div _
  · dsimp only
    rw [show ((0 : ℝ) - Ty) * (0 - 0) + (Tx - 0) * (1 - 0) = Tx by ring]
    rw [div_eq_iff (by simpa using hTx : (2 : ℝ) * Tx ≠ 0)]
    ring
  · dsimp only
    linarith [hmpos]
  · dsimp only
    linarith [hmpos]
  · dsimp only
    linarith [hmpos]
  · dsimp only
    linarith [hmpos]

/-- Existing edge along the x-axis through the parent (no endpoint ids). -/
def c3L1 : Line3D := ⟨⟨-1, 0, 0⟩, ⟨1, 0, 0⟩, none, none⟩

/-- Existing edge along the y-axis through the parent (no endpoint ids). -/
def c3L2 : Line3D := ⟨⟨0, -1, 0⟩, ⟨0, 1, 0⟩, none, none⟩

/-- Any proposed segment from the origin to a point at planar distance at
least 2 crosses one of the two axis edges: `killY` when the y-component is
appreciable, otherwise the x-component must be, and `killX` fires. -/
theorem c3kill (T : Position3D) (h : 4 ≤ T.x ^ 2 + T.y ^ 2) :
    wouldLineIntersect ⟨0, 0, 0⟩ T [c3L1, c3L2] none none := by
  unfold wouldLineIntersect
  by_cases hy : 0.00005 ≤ |T.y|
  · exact ⟨c3L1, by simp, trivial, killY T.x T.y hy⟩
  · have hx : 0.00005 ≤ |T.x| := by
      push_neg at hy
      nlinarith [sq_abs T.x, sq_abs T.y, abs_nonneg T.x, abs_nonneg T.y]
    exact ⟨c3L2, by simp, trivial, killX T.x T.y hx⟩

/-- If every hierarchically corrected angular sample at a tried index fails
the checks, the angle loop returns `none` and advances the counter once per
sample. -/
theorem angleTry_allfail (ctx : SearchCtx) (d : ℝ) :
    ∀ (l : List ℕ) (c : ℕ),
      (∀ i ∈ l, ∀ k : ℕ, ¬ safeChecks ctx
        (enforceHierarchicalDistance (angleCandidate ctx d i k) ctx.parentPos
          ctx.centerPos 0.8)) →
      angleTry ctx d l c = (none, c + l.length) := by
  intro l
  induction l with
  | nil => intro c _; simp [angleTry]
  | cons i rest ih =>
    intro c hfail
    rw [angleTry]
    rw [if_neg (hfail i (by simp) c)]
    rw [ih (c + 1) (fun j hj k => hfail j (by simp [hj]) k)]
    simp
    omega

/-- If every sample at every tried radius fails, the growing-radius loop
returns `none`, consuming 32 draws per radius. -/
theorem radiusTry_allfail (ctx : SearchCtx) :
    ∀ (ds : List ℝ) (c : ℕ),
      (∀ d ∈ ds, ∀ i ∈ List.range 32, ∀ k : ℕ, ¬ safeChecks ctx
        (enforceHierarchicalDistance (angleCandidate ctx d i k) ctx.parentPos
          ctx.centerPos 0.8)) →
      radiusTry ctx ds c = (none, c + 32 * ds.length) := by
  intro ds
  induction ds with
  | nil => intro c _; simp [radiusTry]
  | cons d rest ih =>
    intro c hds
    rw [radiusTry]
    rw [angleTry_allfail ctx d (List.range 32) c (hds d (by simp))]
    dsimp only
    rw [ih (c + (List.range 32).length) (fun e he => hds e (by simp [he]))]
    simp
    omega

/-- The fallback position built on lines 310-325 of the source when the whole
search fails: the JS-normalized direction from the parent to the corrected
preferred position, scaled by `base + eff·2`. -/
def fallbackPos (parentPos hier : Position3D) (base eff : ℝ) : Position3D :=
  let dx := hier.x - parentPos.x
  let dy := hier.y - parentPos.y
  let dz := hier.z - parentPos.z
  let len := Real.sqrt (dx ^ 2 + dy ^ 2 + dz ^ 2)
  let normalized := jsNormalize dx dy dz len
  ⟨parentPos.x + normalized.x * (base + eff * 2),
   parentPos.y + normalized.y * (base + eff * 2),
   parentPos.z + normalized.z * (base + eff * 2)⟩

/-- The search context of the C3 scenario: parent and center at the origin,
no occupied positions, the two axis edges, `minDistance` 1.4. -/
@[reducible] def c3ctx : SearchCtx :=
  ⟨randHalf, ⟨0, 0, 0⟩, ⟨0, 0, 0⟩, 0, [], [c3L1, c3L2], 1.4 + 0.6, none, none⟩

theorem c3henf : enforceHierarchicalDistance ⟨0, 0.9, 0⟩ ⟨0, 0, 0⟩ ⟨0, 0, 0⟩ 0.8 =
    ⟨0, 0.9, 0⟩ := by
  apply enforce_far
  have h9 : distanceFromCenter (⟨0, 0.9, 0⟩ : Position3D) = 0.9 :=
    @dfc_eval ⟨0, 0.9, 0⟩ 0.9 (by norm_num) (by norm_num)
  have h0 : distanceFromCenter (⟨0, 0, 0⟩ : Position3D) = 0 :=
    @dfc_eval ⟨0, 0, 0⟩ 0 (by norm_num) (by norm_num)
  rw [h9, h0]
  norm_num

theorem c3kill09 : wouldLineIntersect ⟨0, 0, 0⟩ ⟨0, 0.9, 0⟩ [c3L1, c3L2] none none := by
  unfold wouldLineIntersect
  refine ⟨c3L1, by simp, by trivial, ?_⟩
  have h09 : |(0.9 : ℝ)| = 0.9 := abs_of_nonneg (by norm_num)
  exact killY 0 0.9 (by rw [h09]; norm_num)

theorem c3hierfail : ¬ safeChecks c3ctx ⟨0, 0.9, 0⟩ := by
  intro hsafe
  exact hsafe.2 c3kill09

theorem c3fail : ∀ (i c : ℕ) (d : ℝ), 2 ≤ d →
    ¬ safeChecks c3ctx (enforceHierarchicalDistance (angleCandidate c3ctx d i c)
      c3ctx.parentPos c3ctx.centerPos 0.8) := by
  intro i c d hd
  have hx : (angleCandidate c3ctx d i c).x = Real.cos ((i : ℝ) * Real.pi * 2 / 32) * d := by
    simp [angleCandidate, c3ctx]
  have hy : (angleCandidate c3ctx d i c).y = Real.sin ((i : ℝ) * Real.pi * 2 / 32) * d := by
    simp [angleCandidate, c3ctx]
  have hiden : (Real.cos ((i : ℝ) * Real.pi * 2 / 32) * d) ^ 2 +
      (Real.sin ((i : ℝ) * Real.pi * 2 / 32) * d) ^ 2 = d ^ 2 := by
    have h1 := Real.sin_sq_add_cos_sq ((i : ℝ) * Real.pi * 2 / 32)
    calc (Real.cos ((i : ℝ) * Real.pi * 2 / 32) * d) ^ 2 +
        (Real.sin ((i : ℝ) * Real.pi * 2 / 32) * d) ^ 2
        = (Real.sin ((i : ℝ) * Real.pi * 2 / 32) ^ 2 +
            Real.cos ((i : ℝ) * Real.pi * 2 / 32) ^ 2) * d ^ 2 := by ring
    _ = 1 * d ^ 2 := by rw [h1]
    _ = d ^ 2 := one_mul _
  have hxy : 4 ≤ (angleCandidate c3ctx d i c).x ^ 2 + (angleCandidate c3ctx d i c).y ^ 2 := by
    rw [hx, hy, hiden]
    nlinarith [hd, sq_nonneg (d - 2)]
  have henfc : enforceHierarchicalDistance (angleCandidate c3ctx d i c)
      c3ctx.parentPos c3ctx.centerPos 0.8 = angleCandidate c3ctx d i c := by
    apply enforce_far
    have h0 : distanceFromCenter c3ctx.parentPos = 0 :=
      @dfc_eval ⟨0, 0, 0⟩ 0 (by norm_num) (by norm_num)
    rw [h0, zero_add]
    apply dfc_ge (by norm_num)
    nlinarith [hxy, sq_nonneg (angleCandidate c3ctx d i c).z]
  rw [henfc]
  intro hsafe
  exact hsafe.2 (c3kill _ hxy)

theorem c3angle_none : angleTry c3ctx 2 (List.range 32) 0 = (none, 32) := by
  have h := angleTry_allfail c3ctx 2 (List.range 32) 0 (fun i _ k => c3fail i k 2 (le_refl 2))
  simpa using h

theorem c3radius_none : radiusTry c3ctx (radiusSteps 2) 32 = (none, 416) := by
  have hall : ∀ d ∈ radiusSteps 2, (2 : ℝ) ≤ d := by
    intro d hdm
    unfold radiusSteps at hdm
    rw [List.mem_map] at hdm
    obtain ⟨k, _, hkd⟩ := hdm
    rw [← hkd]
    have hk0 : (0 : ℝ) ≤ (k : ℝ) := Nat.cast_nonneg k
    linarith
  have h := radiusTry_allfail c3ctx (radiusSteps 2) 32
    (fun d hdm i _ k => c3fail i k d (hall d hdm))
  simpa [radiusSteps] using h

theorem c3base : max (distance3D (⟨0, 0, 0⟩ : Position3D) ⟨0, 0.9, 0⟩) (1.4 + 0.6) = 2 := by
  have hd3 : distance3D (⟨0, 0, 0⟩ : Position3D) ⟨0, 0.9, 0⟩ = 0.9 :=
    @dist3D_eval ⟨0, 0, 0⟩ ⟨0, 0.9, 0⟩ 0.9 (by norm_num) (by norm_num)
  rw [hd3, max_eq_right (by norm_num : (0.9 : ℝ) ≤ 1.4 + 0.6)]
  norm_num

theorem c3fb : fallbackPos ⟨0, 0, 0⟩ ⟨0, 0.9, 0⟩ 2 (1.4 + 0.6) = ⟨6, 6, 0⟩ := by
  unfold fallbackPos
  dsimp only
  have hl : Real.sqrt (((0 : ℝ) - 0) ^ 2 + ((0.9 : ℝ) - 0) ^ 2 + ((0 : ℝ) - 0) ^ 2) = 0.9 :=
    sqrt_val (by norm_num) (by norm_num)
  rw [hl]
  unfold jsNormalize
  dsimp only
  rw [if_pos (by norm_num : ((0 : ℝ) - 0) / 0.9 = 0)]
  norm_num [Position3D.mk.injEq]

theorem c3henf6 : enforceHierarchicalDistance ⟨6, 6, 0⟩ ⟨0, 0, 0⟩ ⟨0, 0, 0⟩ 0.8 =
    ⟨6, 6, 0⟩ := by
  apply enforce_far
  have h0 : distanceFromCenter (⟨0, 0, 0⟩ : Position3D) = 0 :=
    @dfc_eval ⟨0, 0, 0⟩ 0 (by norm_num) (by norm_num)
  rw [h0, zero_add]
  apply dfc_ge (by norm_num)
  norm_num

theorem c3_run :
    findSafePosition ⟨0, 0, 0⟩ ⟨0, 0.9, 0⟩ [] [c3L1, c3L2] 1.4 none none ⟨0, 0, 0⟩
      randHalf 0 = (⟨6, 6, 0⟩, 416) := by
  unfold findSafePosition
  dsimp only
  rw [c3henf]
  rw [if_neg c3hierfail]
  rw [c3base]
  rw [c3angle_none]
  dsimp only
  rw [c3radius_none]
  dsimp only
  show (enforceHierarchicalDistance (fallbackPos ⟨0, 0, 0⟩ ⟨0, 0.9, 0⟩ 2 (1.4 + 0.6))
    ⟨0, 0, 0⟩ ⟨0, 0, 0⟩ 0.8, 416) = (⟨6, 6, 0⟩, 416)
  rw [c3fb, c3henf6]

theorem c3_spec : specFallback ⟨0, 0, 0⟩ ⟨0, 0.9, 0⟩ 1.4 ⟨0, 0, 0⟩ = ⟨0, 6, 0⟩ := by
  unfold specFallback
  dsimp only
  rw [c3henf]
  rw [c3base]
  dsimp only
  have hl : Real.sqrt (((0 : ℝ) - 0) ^ 2 + ((0.9 : ℝ) - 0) ^ 2 + ((0 : ℝ) - 0) ^ 2) = 0.9 :=
    sqrt_val (by norm_num) (by norm_num)
  rw [hl]
  norm_num
  apply enforce_far
  have h0 : distanceFromCenter (⟨0, 0, 0⟩ : Position3D) = 0 :=
    @dfc_eval ⟨0, 0, 0⟩ 0 (by norm_num) (by norm_num)
  have h6 : distanceFromCenter (⟨0, 6, 0⟩ : Position3D) = 6 :=
    @dfc_eval ⟨0, 6, 0⟩ 6 (by norm_num) (by norm_num)
  rw [h0, h6]
  norm_num

/-- C3 counterexample: parent and center at the origin, preferred position
(0, 0.9, 0), no occupied positions, two axis edges through the parent that
make every checked candidate fail.  The claimed fallback — the parent plus the
normalized parent-to-preferred direction scaled by base + 2·eff
(`specFallback`, modelled from the spec's words) — would be (0, 6, 0), but the
code returns (6, 6, 0): the JS idiom `direction.x / length || 1` replaces the
zero x-quotient by 1. -/
theorem C3_counterexample :
    (findSafePosition ⟨0, 0, 0⟩ ⟨0, 0.9, 0⟩ [] [c3L1, c3L2] 1.4 none none ⟨0, 0, 0⟩
        randHalf 0).1 = ⟨6, 6, 0⟩ ∧
      specFallback ⟨0, 0, 0⟩ ⟨0, 0.9, 0⟩ 1.4 ⟨0, 0, 0⟩ = ⟨0, 6, 0⟩ ∧
      (⟨6, 6, 0⟩ : Position3D) ≠ ⟨0, 6, 0⟩ := by
  refine ⟨by rw [c3_run], c3_spec, ?_⟩
  intro hcontra
  have hx := congrArg Position3D.x hcontra
  norm_num at hx

/-- C3: `findSafePosition` is total by construction (first conjunct), and
whenever the corrected preferred position, all 32 angle samples and all
12·32 increased-radius samples fail the checks, the result is the
hierarchical correction of `fallbackPos`: the parent plus the JS-normalized
direction toward the corrected preferred position — whose x-component is
replaced by 1 when the x-quotient is zero — scaled by the base radius plus
twice the effective minimum distance. -/
theorem C3_theorem
    (parentPos preferredPos : Position3D)
    (existingPositions : List Position3D) (existingLines : List Line3D)
    (minDistance : ℝ) (currentNodeId parentNodeId : Option String)
    (centerPos : Position3D) (rand : ℕ → ℝ) (c c1 c2 : ℕ)
    (hier : Position3D) (base : ℝ) (ctx : SearchCtx)
    (hhier : hier = enforceHierarchicalDistance preferredPos parentPos centerPos 0.8)
    (hctx : ctx = ⟨rand, parentPos, centerPos, hier.z, existingPositions, existingLines,
      minDistance + 0.6, currentNodeId, parentNodeId⟩)
    (hbase : base = max (distance3D parentPos hier) (minDistance + 0.6))
    (h0 : ¬ safeChecks ctx hier)
    (h1 : angleTry ctx base (List.range 32) c = (none, c1))
    (h2 : radiusTry ctx (radiusSteps base) c1 = (none, c2)) :
    (∀ cc : ℕ, ∃ p k, findSafePosition parentPos preferredPos existingPositions existingLines
        minDistance currentNodeId parentNodeId centerPos rand cc = (p, k)) ∧
      findSafePosition parentPos preferredPos existingPositions existingLines minDistance
          currentNodeId parentNodeId centerPos rand c =
        (enforceHierarchicalDistance (fallbackPos parentPos hier base (minDistance + 0.6))
          parentPos centerPos 0.8, c2) := by
  subst hhier
  subst hctx
  subst hbase
  refine ⟨fun cc => ⟨_, _, rfl⟩, ?_⟩
  unfold findSafePosition
  dsimp only
  rw [if_neg h0]
  rw [h1]
  dsimp only
  rw [h2]
  dsimp only
  rfl

/-- C3 witness: the scenario of the counterexample instantiates the
theorem — all candidates fail and the search lands on the corrected
`fallbackPos` after 416 random draws. -/
theorem C3_witness :
    findSafePosition ⟨0, 0, 0⟩ ⟨0, 0.9, 0⟩ [] [c3L1, c3L2] 1.4 none none ⟨0, 0, 0⟩
        randHalf 0 =
      (enforceHierarchicalDistance (fallbackPos ⟨0, 0, 0⟩ ⟨0, 0.9, 0⟩ 2 (1.4 + 0.6))
        ⟨0, 0, 0⟩ ⟨0, 0, 0⟩ 0.8, 416) :=
  (C3_theorem ⟨0, 0, 0⟩ ⟨0, 0.9, 0⟩ [] [c3L1, c3L2] 1.4 none none ⟨0, 0, 0⟩ randHalf 0 32 416
    ⟨0, 0.9, 0⟩ 2 c3ctx c3henf.symm rfl c3base.symm c3hierfail c3angle_none c3radius_none).2

/-! ### Claim C2 -/

/-- Top-level node whose preferred (and final) position is (10.2, 11.2, 0). -/
def c2A : Node3D := ⟨"A", "A", 1, ⟨10.2, 11.2, 0⟩, false, []⟩

/-- Top-level node whose preferred position (0, 0.9, 0) is blocked, sending
its search to the fallback. -/
def c2B : Node3D := ⟨"B", "B", 1, ⟨0, 0.9, 0⟩, false, []⟩

/-- Center node at the origin. -/
def c2center : Node3D := ⟨"center", "center", 0, ⟨0, 0, 0⟩, true, []⟩

/-- A ring of 32 occupied positions at radius 5.3, one at each of the
search's candidate angles: every candidate radius the search tries lies in
[3.4, 7.2], hence within 1.9 < 3.4 of the same-angle ring point. -/
@[reducible] def c2ring : List Position3D :=
  (List.range 32).map fun i : ℕ =>
    ⟨Real.cos ((i : ℝ) * Real.pi * 2 / 32) * 5.3,
     Real.sin ((i : ℝ) * Real.pi * 2 / 32) * 5.3, 0⟩

/-- The seeded occupied positions: the ring plus a blocker near node B's
preferred position. -/
@[reducible] def c2seeds : List Position3D := c2ring ++ [⟨0, 2, 0⟩]

/-- The edge recorded for node A's placement. -/
@[reducible] def c2line : Line3D := ⟨⟨0, 0, 0⟩, ⟨10.2, 11.2, 0⟩, some "center", some "A"⟩

/-- The occupied positions at the time of node B's search. -/
@[reducible] def c2posB : List Position3D := (c2seeds ++ [⟨0, 0, 0⟩]) ++ [⟨10.2, 11.2, 0⟩]

/-- The search context of node B's placement. -/
@[reducible] def c2ctx : SearchCtx :=
  ⟨randHalf, ⟨0, 0, 0⟩, ⟨0, 0, 0⟩, 0, c2posB, [c2line], 2.8 + 0.6, some "B", some "center"⟩

theorem c2farA : ∀ pos ∈ c2seeds ++ [(⟨0, 0, 0⟩ : Position3D)],
    distance3D ⟨10.2, 11.2, 0⟩ pos ≥ 2.8 + 0.6 := by
  intro pos hpos
  rcases List.mem_append.mp hpos with h | h
  · have h' : pos ∈ c2ring ++ [(⟨0, 2, 0⟩ : Position3D)] := h
    rcases List.mem_append.mp h' with h2 | h2
    · obtain ⟨i, -, rfl⟩ := List.mem_map.mp h2
      refine dist3D_ge (by norm_num) ?_
      dsimp only
      have hid := Real.sin_sq_add_cos_sq ((i : ℝ) * Real.pi * 2 / 32)
      nlinarith [hid,
        sq_nonneg (10.2 * Real.sin ((i : ℝ) * Real.pi * 2 / 32) -
          11.2 * Real.cos ((i : ℝ) * Real.pi * 2 / 32)),
        sq_nonneg (10.2 * Real.cos ((i : ℝ) * Real.pi * 2 / 32) +
          11.2 * Real.sin ((i : ℝ) * Real.pi * 2 / 32) - 16)]
    · rcases List.mem_singleton.mp h2 with rfl
      refine dist3D_ge (by norm_num) ?_
      norm_num
  · rcases List.mem_singleton.mp h with rfl
    refine dist3D_ge (by norm_num) ?_
    norm_num

theorem c2henfA : enforceHierarchicalDistance ⟨10.2, 11.2, 0⟩ ⟨0, 0, 0⟩ ⟨0, 0, 0⟩ 0.8 =
    ⟨10.2, 11.2, 0⟩ := by
  apply enforce_far
  have h0 : distanceFromCenter (⟨0, 0, 0⟩ : Position3D) = 0 :=
    @dfc_eval ⟨0, 0, 0⟩ 0 (by norm_num) (by norm_num)
  rw [h0, zero_add]
  apply dfc_ge (by norm_num)
  norm_num

theorem c2Asearch : findSafePosition ⟨0, 0, 0⟩ ⟨10.2, 11.2, 0⟩
    (c2seeds ++ [⟨0, 0, 0⟩]) [] 2.8 (some "A") (some "center") ⟨0, 0, 0⟩ randHalf 0 =
    (⟨10.2, 11.2, 0⟩, 0) := by
  have hsafe : safeChecks
      ⟨randHalf, ⟨0, 0, 0⟩, ⟨0, 0, 0⟩,
        (enforceHierarchicalDistance (⟨10.2, 11.2, 0⟩ : Position3D) ⟨0, 0, 0⟩ ⟨0, 0, 0⟩ 0.8).z,
        c2seeds ++ [⟨0, 0, 0⟩], [], 2.8 + 0.6, some "A", some "center"⟩
      (enforceHierarchicalDistance (⟨10.2, 11.2, 0⟩ : Position3D) ⟨0, 0, 0⟩ ⟨0, 0, 0⟩ 0.8) := by
    rw [c2henfA]
    constructor
    · exact c2farA
    · intro hw
      rcases hw with ⟨l, hl, -⟩
      simp at hl
  have h1 := @findSafePosition_first ⟨0, 0, 0⟩ ⟨10.2, 11.2, 0⟩ (c2seeds ++ [⟨0, 0, 0⟩]) []
    2.8 (some "A") (some "center") ⟨0, 0, 0⟩ randHalf 0 hsafe
  rw [c2henfA] at h1
  exact h1

theorem c2hierfail : ¬ safeChecks c2ctx ⟨0, 0.9, 0⟩ := by
  intro hsafe
  have h20 : (⟨0, 2, 0⟩ : Position3D) ∈ c2ctx.existingPositions := by
    show (⟨0, 2, 0⟩ : Position3D) ∈ (c2seeds ++ [⟨0, 0, 0⟩]) ++ [⟨10.2, 11.2, 0⟩]
    refine List.mem_append.mpr (Or.inl (List.mem_append.mpr (Or.inl ?_)))
    exact List.mem_append.mpr (Or.inr (by simp))
  have hlt : distance3D ⟨0, 0.9, 0⟩ ⟨0, 2, 0⟩ < 2.8 + 0.6 := by
    refine dist3D_lt (by norm_num) ?_
    norm_num
  have hge := hsafe.1 ⟨0, 2, 0⟩ h20
  linarith

theorem c2fail : ∀ i ∈ List.range 32, ∀ (k : ℕ) (d : ℝ), 3.4 ≤ d → d ≤ 7.2 →
    ¬ safeChecks c2ctx (enforceHierarchicalDistance (angleCandidate c2ctx d i k)
      c2ctx.parentPos c2ctx.centerPos 0.8) := by
  intro i hi k d hd1 hd2
  have hx : (angleCandidate c2ctx d i k).x = Real.cos ((i : ℝ) * Real.pi * 2 / 32) * d := by
    norm_num [angleCandidate, c2ctx]
  have hy : (angleCandidate c2ctx d i k).y = Real.sin ((i : ℝ) * Real.pi * 2 / 32) * d := by
    norm_num [angleCandidate, c2ctx]
  have hz : (angleCandidate c2ctx d i k).z = 0 := by
    norm_num [angleCandidate, c2ctx, randHalf]
  have hid := Real.sin_sq_add_cos_sq ((i : ℝ) * Real.pi * 2 / 32)
  have henfc : enforceHierarchicalDistance (angleCandidate c2ctx d i k)
      c2ctx.parentPos c2ctx.centerPos 0.8 = angleCandidate c2ctx d i k := by
    apply enforce_far
    have h0 : distanceFromCenter c2ctx.parentPos = 0 :=
      @dfc_eval ⟨0, 0, 0⟩ 0 (by norm_num) (by norm_num)
    rw [h0, zero_add]
    apply dfc_ge (by norm_num)
    rw [hx, hy, hz]
    nlinarith [hid, hd1, sq_nonneg (d - 3.4)]
  have hobs : (⟨Real.cos ((i : ℝ) * Real.pi * 2 / 32) * 5.3,
      Real.sin ((i : ℝ) * Real.pi * 2 / 32) * 5.3, 0⟩ : Position3D) ∈
      c2ctx.existingPositions := by
    show _ ∈ (c2seeds ++ [(⟨0, 0, 0⟩ : Position3D)]) ++ [(⟨10.2, 11.2, 0⟩ : Position3D)]
    refine List.mem_append.mpr (Or.inl (List.mem_append.mpr (Or.inl ?_)))
    refine List.mem_append.mpr (Or.inl ?_)
    exact List.mem_map.mpr ⟨i, hi, rfl⟩
  have hlt : distance3D (angleCandidate c2ctx d i k)
      ⟨Real.cos ((i : ℝ) * Real.pi * 2 / 32) * 5.3,
       Real.sin ((i : ℝ) * Real.pi * 2 / 32) * 5.3, 0⟩ < 2.8 + 0.6 := by
    refine dist3D_lt (by norm_num) ?_
    dsimp only
    rw [hx, hy, hz]
    have hkey : (Real.cos ((i : ℝ) * Real.pi * 2 / 32) * d -
          Real.cos ((i : ℝ) * Real.pi * 2 / 32) * 5.3) ^ 2 +
        (Real.sin ((i : ℝ) * Real.pi * 2 / 32) * d -
          Real.sin ((i : ℝ) * Real.pi * 2 / 32) * 5.3) ^ 2 +
        ((0 : ℝ) - 0) ^ 2 = (d - 5.3) ^ 2 := by
      calc (Real.cos ((i : ℝ) * Real.pi * 2 / 32) * d -
            Real.cos ((i : ℝ) * Real.pi * 2 / 32) * 5.3) ^ 2 +
          (Real.sin ((i : ℝ) * Real.pi * 2 / 32) * d -
            Real.sin ((i : ℝ) * Real.pi * 2 / 32) * 5.3) ^ 2 + ((0 : ℝ) - 0) ^ 2
          = (Real.sin ((i : ℝ) * Real.pi * 2 / 32) ^ 2 +
              Real.cos ((i : ℝ) * Real.pi * 2 / 32) ^ 2) * (d - 5.3) ^ 2 := by ring
      _ = 1 * (d - 5.3) ^ 2 := by rw [hid]
      _ = (d - 5.3) ^ 2 := one_mul _
    rw [hkey]
    nlinarith [mul_nonneg (sub_nonneg.mpr hd2) (sub_nonneg.mpr hd1)]
  rw [henfc]
  intro hsafe
  have hge := hsafe.1 _ hobs
  linarith

theorem c2base : max (distance3D (⟨0, 0, 0⟩ : Position3D) ⟨0, 0.9, 0⟩) (2.8 + 0.6) = 3.4 := by
  have hd3 : distance3D (⟨0, 0, 0⟩ : Position3D) ⟨0, 0.9, 0⟩ = 0.9 :=
    @dist3D_eval ⟨0, 0, 0⟩ ⟨0, 0.9, 0⟩ 0.9 (by norm_num) (by norm_num)
  rw [hd3, max_eq_right (by norm_num : (0.9 : ℝ) ≤ 2.8 + 0.6)]
  norm_num

theorem c2angle_none : angleTry c2ctx 3.4 (List.range 32) 0 = (none, 32) := by
  have h := angleTry_allfail c2ctx 3.4 (List.range 32) 0
    (fun i hi k => c2fail i hi k 3.4 (le_refl _) (by norm_num))
  simpa using h

theorem c2radius_none : radiusTry c2ctx (radiusSteps 3.4) 32 = (none, 416) := by
  have hb : ∀ d ∈ radiusSteps 3.4, 3.4 ≤ d ∧ d ≤ 7.2 := by
    intro d hdm
    unfold radiusSteps at hdm
    rw [List.mem_map] at hdm
    obtain ⟨k, hk, hkd⟩ := hdm
    have hk11 : (k : ℝ) ≤ 11 := by
      have := Nat.lt_succ_iff.mp (List.mem_range.mp hk)
      exact_mod_cast this
    have hk0 : (0 : ℝ) ≤ (k : ℝ) := Nat.cast_nonneg k
    rw [← hkd]
    constructor <;> linarith
  have h := radiusTry_allfail c2ctx (radiusSteps 3.4) 32
    (fun d hdm i hi k => c2fail i hi k d (hb d hdm).1 (hb d hdm).2)
  simpa [radiusSteps] using h

theorem c2fb : fallbackPos ⟨0, 0, 0⟩ ⟨0, 0.9, 0⟩ 3.4 (2.8 + 0.6) = ⟨10.2, 10.2, 0⟩ := by
  unfold fallbackPos
  dsimp only
  have hl : Real.sqrt (((0 : ℝ) - 0) ^ 2 + ((0.9 : ℝ) - 0) ^ 2 + ((0 : ℝ) - 0) ^ 2) = 0.9 :=
    sqrt_val (by norm_num) (by norm_num)
  rw [hl]
  unfold jsNormalize
  dsimp only
  rw [if_pos (by norm_num : ((0 : ℝ) - 0) / 0.9 = 0)]
  norm_num [Position3D.mk.injEq]

theorem c2henf10 : enforceHierarchicalDistance ⟨10.2, 10.2, 0⟩ ⟨0, 0, 0⟩ ⟨0, 0, 0⟩ 0.8 =
    ⟨10.2, 10.2, 0⟩ := by
  apply enforce_far
  have h0 : distanceFromCenter (⟨0, 0, 0⟩ : Position3D) = 0 :=
    @dfc_eval ⟨0, 0, 0⟩ 0 (by norm_num) (by norm_num)
  rw [h0, zero_add]
  apply dfc_ge (by norm_num)
  norm_num

theorem c2Bsearch : findSafePosition ⟨0, 0, 0⟩ ⟨0, 0.9, 0⟩ c2posB [c2line] 2.8
    (some "B") (some "center") ⟨0, 0, 0⟩ randHalf 0 = (⟨10.2, 10.2, 0⟩, 416) := by
  unfold findSafePosition
  dsimp only
  rw [c3henf]
  rw [if_neg c2hierfail]
  rw [c2base]
  rw [c2angle_none]
  dsimp only
  rw [c2radius_none]
  dsimp only
  show (enforceHierarchicalDistance (fallbackPos ⟨0, 0, 0⟩ ⟨0, 0.9, 0⟩ 3.4 (2.8 + 0.6))
    ⟨0, 0, 0⟩ ⟨0, 0, 0⟩ 0.8, 416) = (⟨10.2, 10.2, 0⟩, 416)
  rw [c2fb, c2henf10]

theorem c2_run :
    (repositionNodesWithCollisionDetection [c2A, c2B] c2center c2seeds randHalf).1 =
      [{c2A with position := ⟨10.2, 11.2, 0⟩}, {c2B with position := ⟨10.2, 10.2, 0⟩}] := by
  have hrepo : repoMinDist 0 = 2.8 := by simp [repoMinDist]
  have hA : ¬(c2A.expanded = true ∧ c2A.children ≠ []) := by simp [c2A]
  have hB : ¬(c2B.expanded = true ∧ c2B.children ≠ []) := by simp [c2B]
  unfold repositionNodesWithCollisionDetection
  rw [passLoop, passLoop, passLoop]
  rw [worker_not_expanded _ _ _ _ _ _ _ _ hA, worker_not_expanded _ _ _ _ _ _ _ _ hB]
  dsimp only
  simp only [c2A, c2B, c2center, List.nil_append, Option.getD_some, hrepo]
  rw [c2Asearch]
  dsimp only
  rw [c2Bsearch]

/-- C2, as stated, is false: a full layout pass on a depth-1, fan-out-2 tree
(nodes A and B below the center, both visible, non-adjacent siblings) can
leave two visible non-adjacent nodes only 1 world unit apart, far below the
effective minimum distance 2.8 + 0.6 = 3.4.  The seeded occupied positions
block every checked candidate of B's search, so B is committed on the
fallback path, which performs no collision check — landing 1 unit away from
A's committed position. -/
theorem C2_counterexample :
    ((repositionNodesWithCollisionDetection [c2A, c2B] c2center c2seeds randHalf).1.map
        Node3D.position) = [⟨10.2, 11.2, 0⟩, ⟨10.2, 10.2, 0⟩] ∧
      distance3D ⟨10.2, 11.2, 0⟩ ⟨10.2, 10.2, 0⟩ = 1 ∧
      ¬((1 : ℝ) ≥ 2.8 + 0.6 - 1) := by
  refine ⟨?_, @dist3D_eval ⟨10.2, 11.2, 0⟩ ⟨10.2, 10.2, 0⟩ 1 (by norm_num) (by norm_num),
    by norm_num⟩
  rw [c2_run]
  simp

/-- C2 (amended): every position the search commits after passing the
collision and edge-crossing checks keeps the effective minimum distance
`minDistance + 0.6` to every already-occupied position; the only other
possible outcome of a placement is the deterministic fallback position, which
is committed without any collision check. -/
theorem C2_theorem (parentPos preferredPos : Position3D)
    (existingPositions : List Position3D) (existingLines : List Line3D)
    (minDistance : ℝ) (currentNodeId parentNodeId : Option String)
    (centerPos : Position3D) (rand : ℕ → ℝ) (c : ℕ) :
    (∀ pos ∈ existingPositions,
        distance3D (findSafePosition parentPos preferredPos existingPositions existingLines
          minDistance currentNodeId parentNodeId centerPos rand c).1 pos ≥
          minDistance + 0.6) ∨
      (findSafePosition parentPos preferredPos existingPositions existingLines
          minDistance currentNodeId parentNodeId centerPos rand c).1 =
        enforceHierarchicalDistance
          (fallbackPos parentPos
            (enforceHierarchicalDistance preferredPos parentPos centerPos 0.8)
            (max (distance3D parentPos
              (enforceHierarchicalDistance preferredPos parentPos centerPos 0.8))
              (minDistance + 0.6))
            (minDistance + 0.6)) parentPos centerPos 0.8 := by
  unfold findSafePosition
  dsimp only
  split
  · next h0 => exact Or.inl fun pos hm => h0.1 pos hm
  · split
    · next t c1 hA => exact Or.inl fun pos hm => (angleTry_some hA).1.1 pos hm
    · split
      · next t c2 hR => exact Or.inl fun pos hm => (radiusTry_some hR).1.1 pos hm
      · exact Or.inr rfl

/-! ### Claim C7 -/

/-- Point at angle `t·π/8` on the circle of radius 1.9 around the origin. -/
@[reducible] def c7pt (t : ℝ) : Position3D :=
  ⟨Real.cos (t * Real.pi / 8) * 1.9, Real.sin (t * Real.pi / 8) * 1.9, 0⟩

/-- Obstacles at the first nine attempt angles (`a·π/8` for `a = 0..8`): they
penalize the arranger's attempts 0 through 10. -/
@[reducible] def c7obs : List Position3D := (List.range 9).map fun a : ℕ => c7pt (a : ℝ)

/-- The single child arranged in the C7 scenario. -/
def c7child : Node3D := ⟨"c", "c", 2, ⟨0, 0, 0⟩, false, []⟩

/-- The arranger context of the C7 scenario: parent and center at the origin,
radius 1.9, one child, the nine obstacles, no edges, `minDistance` 1.3. -/
@[reducible] def c7ctx : ArrangeCtx :=
  ⟨randHalf, ⟨0, 0, 0⟩, ⟨0, 0, 0⟩, 1.9, 1, c7obs, [], 1.3 + 0.6, none⟩

/-- Chord bound: two points of the circle whose angular difference has
cosine above 1/2 are closer than the radius 1.9. -/
theorem c7dist_lt (s t : ℝ) (h : Real.cos (s * Real.pi / 8 - t * Real.pi / 8) > 1 / 2) :
    distance3D (c7pt s) (c7pt t) < 1.9 := by
  refine dist3D_lt (by norm_num) ?_
  dsimp only
  rw [Real.cos_sub] at h
  nlinarith [Real.sin_sq_add_cos_sq (s * Real.pi / 8), Real.sin_sq_add_cos_sq (t * Real.pi / 8), h]

/-- Chord bound: two points of the circle whose angular difference has
cosine at most 1/2 are at least 1.9 apart. -/
theorem c7dist_ge (s t : ℝ) (h : Real.cos (s * Real.pi / 8 - t * Real.pi / 8) ≤ 1 / 2) :
    distance3D (c7pt s) (c7pt t) ≥ 1.9 := by
  refine dist3D_ge (by norm_num) ?_
  dsimp only
  rw [Real.cos_sub] at h
  nlinarith [Real.sin_sq_add_cos_sq (s * Real.pi / 8), Real.sin_sq_add_cos_sq (t * Real.pi / 8), h]

/-- Angular differences between 3 and 11 eighth-turns have cosine at most
1/2: below π by monotonicity from cos(π/3), above π because the cosine is
nonpositive up to 3π/2. -/
theorem c7cos_le (m : ℝ) (h3 : 3 ≤ m) (h11 : m ≤ 11) :
    Real.cos (m * Real.pi / 8) ≤ 1 / 2 := by
  by_cases h8 : m ≤ 8
  · have h1 : Real.pi / 3 ≤ m * Real.pi / 8 := by nlinarith [Real.pi_pos]
    have h2 : m * Real.pi / 8 ≤ Real.pi := by nlinarith [Real.pi_pos]
    calc Real.cos (m * Real.pi / 8) ≤ Real.cos (Real.pi / 3) :=
        Real.cos_le_cos_of_nonneg_of_le_pi (by positivity) h2 h1
    _ = 1 / 2 := Real.cos_pi_div_three
  · push_neg at h8
    have h1 : Real.pi / 2 ≤ m * Real.pi / 8 := by nlinarith [Real.pi_pos]
    have h2 : m * Real.pi / 8 ≤ Real.pi + Real.pi / 2 := by nlinarith [Real.pi_pos]
    calc Real.cos (m * Real.pi / 8) ≤ 0 :=
        Real.cos_nonpos_of_pi_div_two_le_of_le h1 h2
    _ ≤ 1 / 2 := by norm_num

/-- Small angular differences (at most 2 eighth-turns) have cosine above
1/2. -/
theorem c7cos_gt (m : ℝ) (h0 : 0 ≤ m) (h2 : m ≤ 2) :
    Real.cos (m * Real.pi / 8) > 1 / 2 := by
  have hlt : m * Real.pi / 8 < Real.pi / 3 := by nlinarith [Real.pi_pos]
  have hle : Real.pi / 3 ≤ Real.pi := by nlinarith [Real.pi_pos]
  calc (1 : ℝ) / 2 = Real.cos (Real.pi / 3) := Real.cos_pi_div_three.symm
  _ < Real.cos (m * Real.pi / 8) :=
      Real.cos_lt_cos_of_nonneg_of_le_pi (by positivity) hle hlt

/-- In the C7 scenario every raw attempt candidate for the single child is
the exact circle point at angle `a·π/8` (the random jitters vanish and the
hierarchical correction leaves the point untouched). -/
theorem c7cand (a c : ℕ) : arrangeCandidate c7ctx 0 a c = c7pt (a : ℝ) := by
  unfold arrangeCandidate
  simp only [c7ctx, randHalf]
  have hz : ((1 : ℝ) / 2 - 0.5) * 0.2 = 0 := by norm_num
  simp only [Nat.cast_zero, Nat.cast_one, zero_mul, zero_div, zero_add, hz, add_zero]
  have hid := Real.sin_sq_add_cos_sq ((a : ℝ) * Real.pi / 8)
  apply enforce_far
  have h0 : distanceFromCenter (⟨0, 0, 0⟩ : Position3D) = 0 :=
    @dfc_eval ⟨0, 0, 0⟩ 0 (by norm_num) (by norm_num)
  rw [h0, zero_add]
  apply dfc_ge (by norm_num)
  dsimp only
  nlinarith [hid]

/-- Attempts 0 through 10 collide: attempts up to 8 sit exactly on an
obstacle, attempts 9 and 10 are within one or two eighth-turns of the
obstacle at angle π. -/
theorem c7coll (a : ℕ) (ha : a ≤ 10) : arrangeHasCollision c7ctx [] (c7pt (a : ℝ)) := by
  unfold arrangeHasCollision
  by_cases h8 : a ≤ 8
  · refine Or.inl ⟨c7pt (a : ℝ), ?_, ?_⟩
    · exact List.mem_map.mpr ⟨a, List.mem_range.mpr (by omega), rfl⟩
    · show distance3D (c7pt (a : ℝ)) (c7pt (a : ℝ)) < 1.3 + 0.6
      have h := c7dist_lt (a : ℝ) (a : ℝ) (by rw [sub_self, Real.cos_zero]; norm_num)
      linarith
  · have h9 : 9 ≤ a := by omega
    refine Or.inl ⟨c7pt ((8 : ℕ) : ℝ), ?_, ?_⟩
    · exact List.mem_map.mpr ⟨8, List.mem_range.mpr (by omega), rfl⟩
    · show distance3D (c7pt (a : ℝ)) (c7pt ((8 : ℕ) : ℝ)) < 1.3 + 0.6
      have hsub : (a : ℝ) * Real.pi / 8 - ((8 : ℕ) : ℝ) * Real.pi / 8 =
          ((a : ℝ) - 8) * Real.pi / 8 := by push_cast; ring
      have hcos : Real.cos ((a : ℝ) * Real.pi / 8 - ((8 : ℕ) : ℝ) * Real.pi / 8) > 1 / 2 := by
        rw [hsub]
        refine c7cos_gt ((a : ℝ) - 8) ?_ ?_
        · have : (9 : ℝ) ≤ (a : ℝ) := by exact_mod_cast h9
          linarith
        · have : (a : ℝ) ≤ 10 := by exact_mod_cast ha
          linarith
      have h := c7dist_lt (a : ℝ) ((8 : ℕ) : ℝ) hcos
      linarith

/-- Attempt 11 is clear of every obstacle: its angular difference to each of
them lies between 3 and 11 eighth-turns. -/
theorem c7far11 : ∀ p ∈ c7obs, distance3D (c7pt 11) p ≥ 1.9 := by
  intro p hp
  obtain ⟨k, hk, rfl⟩ := List.mem_map.mp hp
  have hk8 : (k : ℝ) ≤ 8 := by
    have hk9 := List.mem_range.mp hk
    have hle : k ≤ 8 := by omega
    exact_mod_cast hle
  have hk0 : (0 : ℝ) ≤ (k : ℝ) := Nat.cast_nonneg k
  have hsub : (11 : ℝ) * Real.pi / 8 - (k : ℝ) * Real.pi / 8 =
      (11 - (k : ℝ)) * Real.pi / 8 := by ring
  have hcos : Real.cos ((11 : ℝ) * Real.pi / 8 - (k : ℝ) * Real.pi / 8) ≤ 1 / 2 := by
    rw [hsub]
    exact c7cos_le (11 - (k : ℝ)) (by linarith) (by linarith)
  exact c7dist_ge 11 (k : ℝ) hcos

/-- First attempt of the loop: with no best yet, a candidate that does not
end the loop is installed as the running best. -/
theorem pick_step_first (ctx : ArrangeCtx) (acc : List Position3D) (i : ℕ) (childId : String)
    (a : ℕ) (rest : List ℕ) (c : ℕ)
    (hne : arrangeScore ctx acc childId a (arrangeCandidate ctx i a c) ≠
      |(a : ℝ) * Real.pi / 8| * 10) :
    pickBestLoop ctx acc i childId (a :: rest) none c =
      pickBestLoop ctx acc i childId rest
        (some (arrangeCandidate ctx i a c,
          arrangeScore ctx acc childId a (arrangeCandidate ctx i a c))) (c + 2) := by
  rw [pickBestLoop]
  rw [if_neg hne]

/-- A continuing attempt whose score is not strictly below the best score
leaves the best untouched (ties keep the earlier candidate). -/
theorem pick_step_keep (ctx : ArrangeCtx) (acc : List Position3D) (i : ℕ) (childId : String)
    (a : ℕ) (rest : List ℕ) (c : ℕ) (bp : Position3D) (bs : ℝ)
    (hne : arrangeScore ctx acc childId a (arrangeCandidate ctx i a c) ≠
      |(a : ℝ) * Real.pi / 8| * 10)
    (hnlt : ¬(arrangeScore ctx acc childId a (arrangeCandidate ctx i a c) < bs)) :
    pickBestLoop ctx acc i childId (a :: rest) (some (bp, bs)) c =
      pickBestLoop ctx acc i childId rest (some (bp, bs)) (c + 2) := by
  rw [pickBestLoop]
  rw [if_neg hnlt]
  rw [if_neg hne]

/-- A continuing attempt with a strictly lower score replaces the best. -/
theorem pick_step_install (ctx : ArrangeCtx) (acc : List Position3D) (i : ℕ) (childId : String)
    (a : ℕ) (rest : List ℕ) (c : ℕ) (bp : Position3D) (bs : ℝ)
    (hne : arrangeScore ctx acc childId a (arrangeCandidate ctx i a c) ≠
      |(a : ℝ) * Real.pi / 8| * 10)
    (hlt : arrangeScore ctx acc childId a (arrangeCandidate ctx i a c) < bs) :
    pickBestLoop ctx acc i childId (a :: rest) (some (bp, bs)) c =
      pickBestLoop ctx acc i childId rest
        (some (arrangeCandidate ctx i a c,
          arrangeScore ctx acc childId a (arrangeCandidate ctx i a c))) (c + 2) := by
  rw [pickBestLoop]
  rw [if_pos hlt]
  rw [if_neg hne]

/-- An attempt with zero collision and zero intersection penalty ends the
loop at once; it also wins (its pure tie-break score is below the stored
best score). -/
theorem pick_step_break (ctx : ArrangeCtx) (acc : List Position3D) (i : ℕ) (childId : String)
    (a : ℕ) (rest : List ℕ) (c : ℕ) (bp : Position3D) (bs : ℝ)
    (hcoll : ¬ arrangeHasCollision ctx acc (arrangeCandidate ctx i a c))
    (hint : ¬ arrangeHasIntersection ctx childId (arrangeCandidate ctx i a c))
    (hlt : |(a : ℝ) * Real.pi / 8| * 10 < bs) :
    pickBestLoop ctx acc i childId (a :: rest) (some (bp, bs)) c =
      (some (arrangeCandidate ctx i a c), c + 2) := by
  have hscore : arrangeScore ctx acc childId a (arrangeCandidate ctx i a c) =
      |(a : ℝ) * Real.pi / 8| * 10 := by
    unfold arrangeScore
    rw [if_neg hcoll, if_neg hint]
    ring
  rw [pickBestLoop]
  rw [hscore]
  rw [if_pos hlt]
  rw [if_pos rfl]
  rfl

/-- No arranger candidate of the C7 scenario can cross an edge: the scenario
has no edges. -/
theorem c7noint (p : Position3D) : ¬ arrangeHasIntersection c7ctx "c" p :=
  fun h => wouldLineIntersect_nil _ _ _ _ h

/-- Scores of the penalized attempts 0..10: collision penalty 1000, no
intersection penalty, plus the tie-break. -/
theorem c7score_pen (a c : ℕ) (ha : a ≤ 10) :
    arrangeScore c7ctx [] "c" a (arrangeCandidate c7ctx 0 a c) =
      1000 + 0 + |(a : ℝ) * Real.pi / 8| * 10 := by
  rw [c7cand]
  unfold arrangeScore
  rw [if_pos (c7coll a ha), if_neg (c7noint _)]

/-- Attempt 11's candidate is collision-free. -/
theorem c7nocoll (k : ℕ) : ¬ arrangeHasCollision c7ctx [] (arrangeCandidate c7ctx 0 11 k) := by
  rw [c7cand]
  intro h
  rcases h with h | h
  · obtain ⟨p, hp, hlt⟩ := h
    have hge := c7far11 p hp
    have hcast : ((11 : ℕ) : ℝ) = (11 : ℝ) := by norm_num
    rw [hcast] at hlt
    have : distance3D (c7pt 11) p < 1.3 + 0.6 := hlt
    linarith
  · obtain ⟨p, hp, -⟩ := h
    simp at hp

/-- Attempts 1..10 neither end the loop nor displace the attempt-0 best. -/
theorem c7keeprun : ∀ (l : List ℕ) (c : ℕ), (∀ a ∈ l, 1 ≤ a ∧ a ≤ 10) →
    pickBestLoop c7ctx [] 0 "c" (l ++ [11, 12, 13, 14, 15])
      (some (arrangeCandidate c7ctx 0 0 0,
        arrangeScore c7ctx [] "c" 0 (arrangeCandidate c7ctx 0 0 0))) c =
    pickBestLoop c7ctx [] 0 "c" [11, 12, 13, 14, 15]
      (some (arrangeCandidate c7ctx 0 0 0,
        arrangeScore c7ctx [] "c" 0 (arrangeCandidate c7ctx 0 0 0))) (c + 2 * l.length) := by
  intro l
  induction l with
  | nil =>
    intro c _
    simp
  | cons a l ih =>
    intro c hmem
    rw [List.cons_append]
    have ha1 := (hmem a (by simp)).1
    have ha10 := (hmem a (by simp)).2
    have hne : arrangeScore c7ctx [] "c" a (arrangeCandidate c7ctx 0 a c) ≠
        |(a : ℝ) * Real.pi / 8| * 10 := by
      rw [c7score_pen a c ha10]
      have hpos : (0 : ℝ) ≤ |(a : ℝ) * Real.pi / 8| * 10 := by positivity
      intro h
      linarith
    have hnlt : ¬(arrangeScore c7ctx [] "c" a (arrangeCandidate c7ctx 0 a c) <
        arrangeScore c7ctx [] "c" 0 (arrangeCandidate c7ctx 0 0 0)) := by
      rw [c7score_pen a c ha10, c7score_pen 0 0 (by omega)]
      have h3 : |((0 : ℕ) : ℝ) * Real.pi / 8| * 10 = 0 := by norm_num
      rw [h3]
      have hpos : (0 : ℝ) ≤ |(a : ℝ) * Real.pi / 8| * 10 := by positivity
      intro h
      linarith
    rw [pick_step_keep _ _ _ _ a _ c _ _ hne hnlt]
    rw [ih (c + 2) (fun b hb => hmem b (by simp [hb]))]
    have hc : c + 2 + 2 * l.length = c + 2 * (a :: l).length := by
      simp only [List.length_cons]
      omega
    rw [hc]

/-- The full 16-attempt selection of the C7 scenario: attempt 0 is installed,
attempts 1..10 are kept out, attempt 11 is penalty-free and ends the loop. -/
theorem c7pick : pickBestLoop c7ctx [] 0 "c" (List.range 16) none 0 = (some (c7pt 11), 24) := by
  have hrange : List.range 16 =
      0 :: ([1, 2, 3, 4, 5, 6, 7, 8, 9, 10] ++ [11, 12, 13, 14, 15]) := by rfl
  rw [hrange]
  have hne0 : arrangeScore c7ctx [] "c" 0 (arrangeCandidate c7ctx 0 0 0) ≠
      |((0 : ℕ) : ℝ) * Real.pi / 8| * 10 := by
    rw [c7score_pen 0 0 (by omega)]
    have h3 : |((0 : ℕ) : ℝ) * Real.pi / 8| * 10 = 0 := by norm_num
    rw [h3]
    norm_num
  rw [pick_step_first _ _ _ _ 0 _ 0 hne0]
  rw [c7keeprun [1, 2, 3, 4, 5, 6, 7, 8, 9, 10] (0 + 2) (by decide)]
  have hlt11 : |((11 : ℕ) : ℝ) * Real.pi / 8| * 10 <
      arrangeScore c7ctx [] "c" 0 (arrangeCandidate c7ctx 0 0 0) := by
    rw [c7score_pen 0 0 (by omega)]
    have habs : |((11 : ℕ) : ℝ) * Real.pi / 8| = ((11 : ℕ) : ℝ) * Real.pi / 8 :=
      abs_of_nonneg (by positivity)
    rw [habs]
    push_cast
    nlinarith [Real.pi_lt_d2, abs_nonneg ((0 : ℝ) * Real.pi / 8)]
  rw [pick_step_break _ _ _ _ 11 _ _ _ _ (c7nocoll _) (c7noint _) hlt11]
  rw [c7cand]
  simp

theorem c7henf11 : enforceHierarchicalDistance (c7pt 11) ⟨0, 0, 0⟩ ⟨0, 0, 0⟩ 0.8 =
    c7pt 11 := by
  apply enforce_far
  have h0 : distanceFromCenter (⟨0, 0, 0⟩ : Position3D) = 0 :=
    @dfc_eval ⟨0, 0, 0⟩ 0 (by norm_num) (by norm_num)
  rw [h0, zero_add]
  apply dfc_ge (by norm_num)
  dsimp only
  nlinarith [Real.sin_sq_add_cos_sq ((11 : ℝ) * Real.pi / 8)]

/-- The winner of the selection also passes the search it is fed into. -/
theorem c7fs : findSafePosition ⟨0, 0, 0⟩ (c7pt 11) (c7obs ++ []) [] 1.3 (some "c") none
    ⟨0, 0, 0⟩ randHalf 24 = (c7pt 11, 24) := by
  have hsafe : safeChecks
      ⟨randHalf, ⟨0, 0, 0⟩, ⟨0, 0, 0⟩,
        (enforceHierarchicalDistance (c7pt 11) ⟨0, 0, 0⟩ ⟨0, 0, 0⟩ 0.8).z,
        c7obs ++ [], [], 1.3 + 0.6, some "c", none⟩
      (enforceHierarchicalDistance (c7pt 11) ⟨0, 0, 0⟩ ⟨0, 0, 0⟩ 0.8) := by
    rw [c7henf11]
    constructor
    · intro pos hpos
      rcases List.mem_append.mp hpos with h | h
      · have hge := c7far11 pos h
        show distance3D (c7pt 11) pos ≥ 1.3 + 0.6
        linarith
      · simp at h
    · intro hw
      rcases hw with ⟨l, hl, -⟩
      simp at hl
  have h1 := @findSafePosition_first ⟨0, 0, 0⟩ (c7pt 11) (c7obs ++ []) [] 1.3 (some "c")
    none ⟨0, 0, 0⟩ randHalf 24 hsafe
  rw [c7henf11] at h1
  exact h1

theorem c7_run :
    arrangeChildrenAroundParent ⟨0, 0, 0⟩ [c7child] c7obs [] 1.9 1.3 none ⟨0, 0, 0⟩
      randHalf 0 = ([c7pt 11], 24) := by
  unfold arrangeChildrenAroundParent
  rw [if_neg (by simp)]
  dsimp only
  have h0 : distanceFromCenter (⟨0, 0, 0⟩ : Position3D) = 0 :=
    @dfc_eval ⟨0, 0, 0⟩ 0 (by norm_num) (by norm_num)
  rw [h0]
  rw [show max (1.9 : ℝ) (0 + 0.8 - 0) = 1.9 from by
    rw [max_eq_left (by norm_num : (0 : ℝ) + 0.8 - 0 ≤ 1.9)]]
  simp only [List.length_singleton, Nat.cast_one]
  rw [show max (1.9 : ℝ) ((1 : ℝ) * (1.3 + 0.6) / (2.2 * Real.pi)) = 1.9 from by
    rw [max_eq_left]
    rw [div_le_iff₀ (by positivity)]
    nlinarith [Real.pi_gt_three]]
  rw [show ([c7child] : List Node3D).enum = [(0, c7child)] from rfl]
  rw [arrangeLoop]
  dsimp only
  simp only [c7child]
  rw [c7pick]
  dsimp only
  rw [c7fs]
  dsimp only
  rw [arrangeLoop]
  simp

/-- C7, as stated, is false in its perturbation bound: the attempt
perturbations are `a·π/8` for `a = 0..15`, reaching 15π/8 — they do exceed π,
and candidates beyond π are really evaluated and can win.  In the C7 scenario
(one child, nine obstacles on the attempt circle), every attempt up to 10 is
penalized and the arranger commits the attempt-11 candidate, whose
perturbation 11·π/8 exceeds π; the counter 24 records that twelve attempts
(two draws each) were evaluated. -/
theorem C7_counterexample :
    arrangeChildrenAroundParent ⟨0, 0, 0⟩ [c7child] c7obs [] 1.9 1.3 none ⟨0, 0, 0⟩
        randHalf 0 = ([c7pt 11], 24) ∧
      Real.pi < 11 * Real.pi / 8 :=
  ⟨c7_run, by nlinarith [Real.pi_pos]⟩

/-- C7 (amended): one step of the arranger's 16-attempt selection loop.  A
non-ending first attempt installs itself as the best; a continuing attempt
keeps the stored best unless its score is strictly lower, in which case it
replaces it; an attempt with zero collision and zero intersection penalty
ends the loop at once and wins; the score of attempt `a` is 1000 on
collision plus 2000 on edge-crossing plus `|a·π/8|·10`; and the perturbation
of the last attempt, 15·π/8, exceeds π (the claimed bound π is wrong). -/
theorem C7_theorem (ctx : ArrangeCtx) (acc : List Position3D) (i : ℕ) (childId : String)
    (a : ℕ) (rest : List ℕ) (c : ℕ) (bp : Position3D) (bs : ℝ) :
    (arrangeScore ctx acc childId a (arrangeCandidate ctx i a c) ≠
        |(a : ℝ) * Real.pi / 8| * 10 →
      pickBestLoop ctx acc i childId (a :: rest) none c =
        pickBestLoop ctx acc i childId rest
          (some (arrangeCandidate ctx i a c,
            arrangeScore ctx acc childId a (arrangeCandidate ctx i a c))) (c + 2)) ∧
    (arrangeScore ctx acc childId a (arrangeCandidate ctx i a c) ≠
        |(a : ℝ) * Real.pi / 8| * 10 →
      ¬(arrangeScore ctx acc childId a (arrangeCandidate ctx i a c) < bs) →
      pickBestLoop ctx acc i childId (a :: rest) (some (bp, bs)) c =
        pickBestLoop ctx acc i childId rest (some (bp, bs)) (c + 2)) ∧
    (arrangeScore ctx acc childId a (arrangeCandidate ctx i a c) ≠
        |(a : ℝ) * Real.pi / 8| * 10 →
      arrangeScore ctx acc childId a (arrangeCandidate ctx i a c) < bs →
      pickBestLoop ctx acc i childId (a :: rest) (some (bp, bs)) c =
        pickBestLoop ctx acc i childId rest
          (some (arrangeCandidate ctx i a c,
            arrangeScore ctx acc childId a (arrangeCandidate ctx i a c))) (c + 2)) ∧
    (¬ arrangeHasCollision ctx acc (arrangeCandidate ctx i a c) →
      ¬ arrangeHasIntersection ctx childId (arrangeCandidate ctx i a c) →
      |(a : ℝ) * Real.pi / 8| * 10 < bs →
      pickBestLoop ctx acc i childId (a :: rest) (some (bp, bs)) c =
        (some (arrangeCandidate ctx i a c), c + 2)) ∧
    (arrangeScore ctx acc childId a (arrangeCandidate ctx i a c) =
      (if arrangeHasCollision ctx acc (arrangeCandidate ctx i a c) then 1000 else 0) +
        (if arrangeHasIntersection ctx childId (arrangeCandidate ctx i a c) then 2000 else 0) +
        |(a : ℝ) * Real.pi / 8| * 10) ∧
    Real.pi < 15 * Real.pi / 8 :=
  ⟨fun h => pick_step_first ctx acc i childId a rest c h,
   fun h1 h2 => pick_step_keep ctx acc i childId a rest c bp bs h1 h2,
   fun h1 h2 => pick_step_install ctx acc i childId a rest c bp bs h1 h2,
   fun h1 h2 h3 => pick_step_break ctx acc i childId a rest c bp bs h1 h2 h3,
   rfl,
   by nlinarith [Real.pi_pos]⟩

/-- C7 witness: the break conjunct of the theorem applied at the concrete
scenario — the penalty-free attempt 11 ends the loop and wins against a
stored best of score 1000. -/
theorem C7_witness :
    pickBestLoop c7ctx [] 0 "c" [11, 12, 13, 14, 15] (some (c7pt 0, 1000)) 22 =
      (some (arrangeCandidate c7ctx 0 11 22), 22 + 2) :=
  (C7_theorem c7ctx [] 0 "c" 11 [12, 13, 14, 15] 22 (c7pt 0) 1000).2.2.2.1
    (c7nocoll 22) (c7noint _)
    (by
      have habs : |((11 : ℕ) : ℝ) * Real.pi / 8| = ((11 : ℕ) : ℝ) * Real.pi / 8 :=
        abs_of_nonneg (by positivity)
      rw [habs]
      push_cast
      nlinarith [Real.pi_lt_d2])

end

